import Mathlib

/-!
Shallow embedding of the bvim editor core (Skulhunter5/bvim) in Lean 4.

Lines are modelled as lists of characters: every `x` coordinate in the
Rust source is a character index (the source always translates it to a
byte offset through `char_indices().nth(x)` before slicing), so a
character-list model mirrors the source exactly.  `usize` arithmetic is
modelled on `Nat`; at the single reachable place where a `usize`
subtraction underflows (and the Rust program panics), the operation is
modelled as returning `none`.
-/

namespace Bvim

/-- A text line, as a sequence of characters. -/
abbrev Line := List Char

/-- util.rs: Position, instantiated at usize as in window.rs. -/
structure Position where
  x : Nat
  y : Nat
deriving DecidableEq, Repr

/-- blessings::WindowBounds, the width/height (u16) part used by window.rs. -/
structure WindowBounds where
  width : Nat
  height : Nat
deriving DecidableEq, Repr

/-- Modelled from the spec: the severity of a status-line notification
(editor.rs revision defining LogLevel is not in the sources; spec 4.3
uses info and error severities). -/
inductive LogLevel where
  | info
  | error
deriving DecidableEq, Repr

/-- Modelled from the spec: a notification is a (message, severity)
pair shown on the status line (spec section 3, Editor data model). -/
structure Notification where
  text : String
  level : LogLevel
deriving DecidableEq, Repr

/-- buffer.rs: Buffer.  The path is modelled as a UTF-8 string (the
source calls path.to_str() and only handles the Some case). -/
structure Buffer where
  lines : List Line
  path : Option String
  changed : Bool
deriving DecidableEq, Repr

namespace Buffer

/-- buffer.rs: Buffer::new_with_path. -/
def new_with_path (path : Option String) : Buffer :=
  { lines := [[]], path := path, changed := false }

/-- buffer.rs: Buffer::new. -/
def new : Buffer :=
  new_with_path none

/-- Rust str::split on a single separator character: n separators give
n+1 pieces, the empty string gives one empty piece. -/
def splitOnChar (sep : Char) : List Char → List (List Char)
  | [] => [[]]
  | c :: cs =>
    let rest := splitOnChar sep cs
    if c = sep then [] :: rest
    else (c :: rest.headD []) :: rest.tail

/-- Rust String::replace("\r", ""): removes every carriage return. -/
def removeCr (l : List Char) : List Char :=
  l.filter (fun c => c ≠ '\r')

/-- buffer.rs: the lines produced by Buffer::new_from_file from the raw
file content, for an existing regular file: split on the newline
character, then strip every carriage return from each piece. -/
def linesFromContent (content : List Char) : List Line :=
  (splitOnChar '\n' content).map removeCr

/-- buffer.rs: Buffer::new_from_file on an existing regular file whose
content read as `content`. -/
def new_from_file (path : String) (content : List Char) : Buffer :=
  { lines := linesFromContent content, path := some path, changed := false }

/-- buffer.rs: Buffer::line_length, the character count of a line. -/
def line_length (b : Buffer) (index : Nat) : Nat :=
  (b.lines.getD index []).length

/-- buffer.rs: the byte stream written by Buffer::save's loop: every
line except the last followed by a newline, the last line bare. -/
def saveContent : List Line → List Char
  | [] => []
  | [l] => l
  | l :: ls => l ++ '\n' :: saveContent ls

/-- buffer.rs: Buffer::save.  Returns the updated buffer, the
notification, and the content written to the file (none when no path
is bound and nothing is written).  I/O failures are outside the model;
this is the successful-write behaviour. -/
def save (b : Buffer) : Buffer × Notification × Option (List Char) :=
  match b.path with
  | some path =>
    ({ b with changed := false },
     ⟨"\"" ++ path ++ "\" " ++ toString b.lines.length ++ "L written", LogLevel.info⟩,
     some (saveContent b.lines))
  | none =>
    (b, ⟨"Could not save: No file name", LogLevel.error⟩, none)

end Buffer

/-- window.rs: Window. -/
structure Window where
  buffer : Buffer
  scroll : Position
  cursor : Position
  bounds : WindowBounds
deriving DecidableEq, Repr

namespace Window

/-- window.rs: Window::new. -/
def new (buffer : Buffer) (bounds : WindowBounds) : Window :=
  { buffer := buffer, scroll := ⟨0, 0⟩, cursor := ⟨0, 0⟩, bounds := bounds }

/-- window.rs: Window::set_bounds.  The usize differences cursor - scroll
cannot underflow in reachable states (scroll ≤ cursor); Nat subtraction
truncates in the unreachable states. -/
def set_bounds (w : Window) (bounds : WindowBounds) : Window :=
  let sy :=
    if w.cursor.y - w.scroll.y ≥ bounds.height then w.cursor.y - bounds.height + 1
    else w.scroll.y
  let sx :=
    if w.cursor.x - w.scroll.x ≥ bounds.width then w.cursor.x - bounds.width + 1
    else w.scroll.x
  { w with bounds := bounds, scroll := ⟨sx, sy⟩ }

/-- window.rs: Window::move_up. -/
def move_up (w : Window) : Window :=
  if w.cursor.y > 0 then
    let cy := w.cursor.y - 1
    let cx := min w.cursor.x (w.buffer.line_length cy)
    let sx := if cx < w.scroll.x then cx else w.scroll.x
    let sy := if cy < w.scroll.y then w.scroll.y - 1 else w.scroll.y
    { w with cursor := ⟨cx, cy⟩, scroll := ⟨sx, sy⟩ }
  else w

/-- window.rs: Window::move_down. -/
def move_down (w : Window) : Window :=
  if w.cursor.y < w.buffer.lines.length - 1 then
    let cy := w.cursor.y + 1
    let cx := min w.cursor.x (w.buffer.line_length cy)
    let sx := if cx < w.scroll.x then cx else w.scroll.x
    let sy := if cy ≥ w.scroll.y + w.bounds.height then w.scroll.y + 1 else w.scroll.y
    { w with cursor := ⟨cx, cy⟩, scroll := ⟨sx, sy⟩ }
  else w

/-- window.rs: Window::move_left. -/
def move_left (w : Window) : Window :=
  if w.cursor.x > 0 then
    let cx := w.cursor.x - 1
    let sx := if cx < w.scroll.x then w.scroll.x - 1 else w.scroll.x
    { w with cursor := ⟨cx, w.cursor.y⟩, scroll := ⟨sx, w.scroll.y⟩ }
  else if w.cursor.y > 0 then
    let cy := w.cursor.y - 1
    let cx := w.buffer.line_length cy
    let sx :=
      if cx ≥ w.scroll.x + w.bounds.width then cx - w.bounds.width + 1
      else w.scroll.x
    let sy := if cy < w.scroll.y then w.scroll.y - 1 else w.scroll.y
    { w with cursor := ⟨cx, cy⟩, scroll := ⟨sx, sy⟩ }
  else w

/-- window.rs: Window::move_right. -/
def move_right (w : Window) : Window :=
  if w.cursor.x < w.buffer.line_length w.cursor.y then
    let cx := w.cursor.x + 1
    let sx := if cx ≥ w.scroll.x + w.bounds.width then w.scroll.x + 1 else w.scroll.x
    { w with cursor := ⟨cx, w.cursor.y⟩, scroll := ⟨sx, w.scroll.y⟩ }
  else if w.cursor.y < w.buffer.lines.length - 1 then
    let cy := w.cursor.y + 1
    let sy := if cy ≥ w.scroll.y + w.bounds.height then w.scroll.y + 1 else w.scroll.y
    { w with cursor := ⟨0, cy⟩, scroll := ⟨0, sy⟩ }
  else w

/-- window.rs: Window::move_to_start_of_line. -/
def move_to_start_of_line (w : Window) : Window :=
  { w with cursor := ⟨0, w.cursor.y⟩, scroll := ⟨0, w.scroll.y⟩ }

/-- Rust char::is_whitespace: the Unicode White_Space property. -/
def is_whitespace (c : Char) : Bool :=
  let n := c.toNat
  (0x09 ≤ n && n ≤ 0x0D) || n = 0x20 || n = 0x85 || n = 0xA0 || n = 0x1680 ||
  (0x2000 ≤ n && n ≤ 0x200A) || n = 0x2028 || n = 0x2029 || n = 0x202F ||
  n = 0x205F || n = 0x3000

/-- The scan of Window::move_to_first_char_in_line: index of the first
non-whitespace character, if any. -/
def firstNonWhitespace : Line → Option Nat
  | [] => none
  | c :: cs =>
    if is_whitespace c then (firstNonWhitespace cs).map (· + 1)
    else some 0

/-- window.rs: Window::move_to_first_char_in_line.  When the whole line
is whitespace the scan sets nothing and the cursor column is unchanged. -/
def move_to_first_char_in_line (w : Window) : Window :=
  let cx :=
    match firstNonWhitespace (w.buffer.lines.getD w.cursor.y []) with
    | some i => i
    | none => w.cursor.x
  let sx1 := if cx < w.scroll.x then cx else w.scroll.x
  let sx2 := if cx ≥ sx1 + w.bounds.width then cx - w.bounds.width + 1 else sx1
  { w with cursor := ⟨cx, w.cursor.y⟩, scroll := ⟨sx2, w.scroll.y⟩ }

/-- window.rs: Window::move_to_end_of_line. -/
def move_to_end_of_line (w : Window) : Window :=
  let cx := w.buffer.line_length w.cursor.y
  let sx :=
    if cx ≥ w.scroll.x + w.bounds.width then cx - w.bounds.width + 1
    else w.scroll.x
  { w with cursor := ⟨cx, w.cursor.y⟩, scroll := ⟨sx, w.scroll.y⟩ }

/-- window.rs: Window::insert_char.  A newline splits the current line
at the cursor's character offset (char_indices().nth translates the
character index to a byte offset; nth past the end yields an empty new
line); any other character is inserted at the cursor's character offset
(or at the end of the line when the cursor sits past the last
character). -/
def insert_char (w : Window) (c : Char) : Window :=
  if c = '\n' then
    let cur := w.buffer.lines.getD w.cursor.y []
    let kept : Line := if w.cursor.x = 0 then [] else cur.take w.cursor.x
    let newLine : Line :=
      if w.cursor.x = 0 then cur
      else if w.cursor.x < cur.length then cur.drop w.cursor.x
      else []
    let lines := ((w.buffer.lines.set w.cursor.y kept).insertIdx (w.cursor.y + 1) newLine)
    let cy := w.cursor.y + 1
    let sy := if cy ≥ w.scroll.y + w.bounds.height then w.scroll.y + 1 else w.scroll.y
    { buffer := { w.buffer with lines := lines, changed := true },
      cursor := ⟨0, cy⟩, scroll := ⟨0, sy⟩, bounds := w.bounds }
  else
    let cur := w.buffer.lines.getD w.cursor.y []
    let idx := min w.cursor.x cur.length
    let lines := w.buffer.lines.set w.cursor.y (cur.insertIdx idx c)
    let cx := w.cursor.x + 1
    let sx := if cx ≥ w.scroll.x + w.bounds.width then w.scroll.x + 1 else w.scroll.x
    { buffer := { w.buffer with lines := lines, changed := true },
      cursor := ⟨cx, w.cursor.y⟩, scroll := ⟨sx, w.scroll.y⟩, bounds := w.bounds }

/-- window.rs: Window::remove_char (backspace). -/
def remove_char (w : Window) : Window :=
  if w.cursor.x = 0 then
    if w.cursor.y > 0 then
      let line := w.buffer.lines.getD w.cursor.y []
      let lines1 := w.buffer.lines.eraseIdx w.cursor.y
      let cy := w.cursor.y - 1
      let cx := (lines1.getD cy []).length
      let lines2 := lines1.set cy ((lines1.getD cy []) ++ line)
      let sy := if cy < w.scroll.y then w.scroll.y - 1 else w.scroll.y
      let sx :=
        if cx ≥ w.scroll.x + w.bounds.width then cx - w.bounds.width + 1
        else w.scroll.x
      { buffer := { w.buffer with lines := lines2, changed := true },
        cursor := ⟨cx, cy⟩, scroll := ⟨sx, sy⟩, bounds := w.bounds }
    else w
  else
    let cx := w.cursor.x - 1
    let cur := w.buffer.lines.getD w.cursor.y []
    let lines := w.buffer.lines.set w.cursor.y (cur.eraseIdx cx)
    let sx := if cx < w.scroll.x then w.scroll.x - 1 else w.scroll.x
    { buffer := { w.buffer with lines := lines, changed := true },
      cursor := ⟨cx, w.cursor.y⟩, scroll := ⟨sx, w.scroll.y⟩, bounds := w.bounds }

/-- window.rs: Window::delete_char (forward delete).  Returns none where
the Rust program panics: at end-of-line of a buffer with fewer than two
lines the source computes lines.len() - 2, which underflows usize, and
the subsequent remove is out of bounds; in the other branch the source
unwraps char_indices().nth(cursor.x), which requires a character at the
cursor (always present in reachable states). -/
def delete_char (w : Window) : Option Window :=
  if w.cursor.x = w.buffer.line_length w.cursor.y then
    if w.buffer.lines.length < 2 then
      none
    else if w.cursor.y < w.buffer.lines.length - 2 then
      let line := w.buffer.lines.getD (w.cursor.y + 1) []
      let lines1 := w.buffer.lines.eraseIdx (w.cursor.y + 1)
      let lines2 := lines1.set w.cursor.y ((lines1.getD w.cursor.y []) ++ line)
      some { w with buffer := { w.buffer with lines := lines2, changed := true } }
    else
      some w
  else
    if w.cursor.x < (w.buffer.lines.getD w.cursor.y []).length then
      let cur := w.buffer.lines.getD w.cursor.y []
      let lines := w.buffer.lines.set w.cursor.y (cur.eraseIdx w.cursor.x)
      some { w with buffer := { w.buffer with lines := lines, changed := true } }
    else
      none

end Window

/-- editor.rs: Mode. -/
inductive Mode where
  | normal
  | insert
  | command
deriving DecidableEq, Repr

/-- crossterm KeyModifiers: a set of modifier flags (bitflags SHIFT,
CONTROL, ALT, SUPER, HYPER, META). -/
structure KeyModifiers where
  shift : Bool
  control : Bool
  alt : Bool
  superKey : Bool
  hyper : Bool
  meta : Bool
deriving DecidableEq, Repr

namespace KeyModifiers

/-- KeyModifiers::empty(). -/
def empty : KeyModifiers := ⟨false, false, false, false, false, false⟩

/-- KeyModifiers::SHIFT. -/
def shiftOnly : KeyModifiers := ⟨true, false, false, false, false, false⟩

/-- KeyModifiers::is_empty(): no flag set. -/
def is_empty (m : KeyModifiers) : Bool := m = empty

end KeyModifiers

/-- crossterm KeyCode, restricted to the constructors this program
mentions. -/
inductive KeyCode where
  | char (c : Char)
  | esc
  | enter
  | backspace
  | delete
  | up
  | down
  | left
  | right
  | home
  | endKey
deriving DecidableEq, Repr

/-- crossterm KeyEvent, the parts keymap.rs reads: code and modifiers. -/
structure KeyEvent where
  code : KeyCode
  modifiers : KeyModifiers
deriving DecidableEq, Repr

/-- keymap.rs: Action. -/
inductive Action where
  | changeMode (m : Mode)
  | moveUp
  | moveDown
  | moveLeft
  | moveRight
  | insertChar (c : Char)
  | removeChar
  | deleteChar
  | executeCommand
  | insertCharCommand (c : Char)
  | removeCharCommand
  | moveToStartOfLine
  | moveToEndOfLine
  | moveToFirstCharacterInLine
deriving DecidableEq, Repr

/-- keymap.rs: Modifiers, the modifier-match part of a table key. -/
inductive Modifiers where
  | any
  | Match (m : KeyModifiers)
deriving DecidableEq, Repr

/-- keymap.rs: Key, the composite table key. -/
structure Key where
  mode : Mode
  key : KeyCode
  modifiers : Modifiers
deriving DecidableEq, Repr

/-- keymap.rs: KeyMap.  The HashMap is modelled as an association list
with lookup by key equality. -/
def KeyMap := List (Key × List Action)

namespace KeyMap

/-- HashMap::get on the association-list model. -/
def get (km : KeyMap) (k : Key) : Option (List Action) :=
  (List.find? (fun e => decide (e.1 = k)) km).map Prod.snd

/-- The pass-through step at the top of KeyMap::handle: a literal
character with no modifiers or exactly shift resolves immediately in
Insert and Command modes. -/
def passThrough (mode : Mode) (event : KeyEvent) : Option (List Action) :=
  if event.modifiers.is_empty || event.modifiers = KeyModifiers.shiftOnly then
    match event.code with
    | KeyCode.char c =>
      if mode = Mode.insert then some [Action.insertChar c]
      else if mode = Mode.command then some [Action.insertCharCommand c]
      else none
    | _ => none
  else none

/-- keymap.rs: KeyMap::handle. -/
def handle (km : KeyMap) (mode : Mode) (event : KeyEvent) : Option (List Action) :=
  match passThrough mode event with
  | some res => some res
  | none =>
    match km.get ⟨mode, event.code, Modifiers.Match event.modifiers⟩ with
    | some res => some res
    | none => km.get ⟨mode, event.code, Modifiers.any⟩

end KeyMap

/-- The viewport invariants of spec section 8, together with the
structural facts they depend on: the buffer is non-empty, the cursor is
on a line at a column no further than one past its last character, the
scroll keeps the cursor inside the bounds, and the bounds are positive. -/
def Inv (w : Window) : Prop :=
  w.buffer.lines ≠ [] ∧
  w.cursor.y < w.buffer.lines.length ∧
  w.cursor.x ≤ w.buffer.line_length w.cursor.y ∧
  w.scroll.x ≤ w.cursor.x ∧
  w.cursor.x < w.scroll.x + w.bounds.width ∧
  w.scroll.y ≤ w.cursor.y ∧
  w.cursor.y < w.scroll.y + w.bounds.height ∧
  0 < w.bounds.width ∧
  0 < w.bounds.height

/-- The cursor/lines part of the invariant, independent of scroll and
bounds. -/
def InvC (w : Window) : Prop :=
  w.buffer.lines ≠ [] ∧
  w.cursor.y < w.buffer.lines.length ∧
  w.cursor.x ≤ w.buffer.line_length w.cursor.y

/-- The operations a Window exposes. -/
inductive Op where
  | up
  | down
  | left
  | right
  | startOfLine
  | endOfLine
  | firstCharInLine
  | insert (c : Char)
  | remove
  | delete
  | setBounds (b : WindowBounds)

/-- One operation applied to a window; none where the Rust program
panics. -/
def stepOp : Op → Window → Option Window
  | Op.up, w => some w.move_up
  | Op.down, w => some w.move_down
  | Op.left, w => some w.move_left
  | Op.right, w => some w.move_right
  | Op.startOfLine, w => some w.move_to_start_of_line
  | Op.endOfLine, w => some w.move_to_end_of_line
  | Op.firstCharInLine, w => some w.move_to_first_char_in_line
  | Op.insert c, w => some (w.insert_char c)
  | Op.remove, w => some w.remove_char
  | Op.delete, w => w.delete_char
  | Op.setBounds b, w => some (w.set_bounds b)

/-- Restriction on operations used by the viewport invariant: resizes
are to positive bounds. -/
def posBounds : Op → Prop
  | Op.setBounds b => 0 < b.width ∧ 0 < b.height
  | _ => True

/-- One step by any operation, resizes restricted to positive bounds. -/
def Step (w w' : Window) : Prop := ∃ op, posBounds op ∧ stepOp op w = some w'

/-- One step by any operation, with no restriction on resizes. -/
def StepAny (w w' : Window) : Prop := ∃ op, stepOp op w = some w'

/-- States reachable by operation sequences with positive resizes. -/
def Reachable : Window → Window → Prop := Relation.ReflTransGen Step

/-- States reachable by arbitrary operation sequences. -/
def ReachableAny : Window → Window → Prop := Relation.ReflTransGen StepAny

/-- A buffer produced by one of the Buffer constructors. -/
def InitialBuffer (b : Buffer) : Prop :=
  b = Buffer.new ∨ (∃ p, b = Buffer.new_with_path p) ∨
  (∃ p content, b = Buffer.new_from_file p content)

/-- Every line of the window's buffer is free of the newline character. -/
def LinesNoNewline (w : Window) : Prop :=
  ∀ l ∈ w.buffer.lines, '\n' ∉ l

/-- The motion operations, the subset of Op the scroll-reconciliation
rule of spec section 4.2 is stated for. -/
inductive Motion where
  | up
  | down
  | left
  | right
  | startOfLine
  | endOfLine
  | firstCharInLine

/-- A motion applied to a window. -/
def applyMotion : Motion → Window → Window
  | Motion.up, w => w.move_up
  | Motion.down, w => w.move_down
  | Motion.left, w => w.move_left
  | Motion.right, w => w.move_right
  | Motion.startOfLine, w => w.move_to_start_of_line
  | Motion.endOfLine, w => w.move_to_end_of_line
  | Motion.firstCharInLine, w => w.move_to_first_char_in_line

/-- The per-axis minimal scroll reconciliation of spec section 4.2: if
the cursor is left of the scroll, scroll to the cursor; if it is at or
past the far edge, scroll so the cursor sits on the last visible cell;
otherwise leave the scroll alone. -/
def fixAxis (scroll cursor size : Nat) : Nat :=
  if cursor < scroll then cursor
  else if scroll + size ≤ cursor then cursor - size + 1
  else scroll

end Bvim

namespace Bvim

section BufferLemmas

open Buffer

theorem splitOnChar_ne_nil (sep : Char) (l : List Char) : splitOnChar sep l ≠ [] := by
  cases l with
  | nil => simp [splitOnChar]
  | cons c cs =>
    simp only [splitOnChar]
    split <;> simp

theorem splitOnChar_no_sep (sep : Char) (l : List Char) (h : sep ∉ l) :
    splitOnChar sep l = [l] := by
  induction l with
  | nil => rfl
  | cons c cs ih =>
    simp only [List.mem_cons, not_or] at h
    have hcs : ¬c = sep := fun hc => h.1 hc.symm
    simp only [splitOnChar, ih h.2, if_neg hcs]
    rfl

theorem splitOnChar_append_sep (sep : Char) (l r : List Char) (h : sep ∉ l) :
    splitOnChar sep (l ++ sep :: r) = l :: splitOnChar sep r := by
  induction l with
  | nil => simp [splitOnChar]
  | cons c cs ih =>
    simp only [List.mem_cons, not_or] at h
    have hcs : ¬c = sep := fun hc => h.1 hc.symm
    simp only [List.cons_append, List.append_eq, splitOnChar, ih h.2, if_neg hcs]
    rfl

theorem mem_splitOnChar_not_mem (sep : Char) (l : List Char) :
    ∀ p ∈ splitOnChar sep l, sep ∉ p := by
  induction l with
  | nil =>
    intro p hp
    simp [splitOnChar] at hp
    simp [hp]
  | cons c cs ih =>
    intro p hp
    simp only [splitOnChar] at hp
    by_cases hc : c = sep
    · rw [if_pos hc] at hp
      rcases List.mem_cons.mp hp with h1 | h2
      · simp [h1]
      · exact ih p h2
    · rw [if_neg hc] at hp
      rcases List.mem_cons.mp hp with h1 | h2
      · subst h1
        intro hmem
        rcases List.mem_cons.mp hmem with h3 | h4
        · exact hc h3.symm
        · obtain ⟨q, hq⟩ := List.exists_mem_of_ne_nil _ (splitOnChar_ne_nil sep cs)
          have hhead : (splitOnChar sep cs).headD [] ∈ splitOnChar sep cs := by
            cases hsp : splitOnChar sep cs with
            | nil => exact absurd hsp (splitOnChar_ne_nil sep cs)
            | cons a as => simp
          exact ih _ hhead h4
      · have : p ∈ splitOnChar sep cs := by
          cases hsp : splitOnChar sep cs with
          | nil => exact absurd hsp (splitOnChar_ne_nil sep cs)
          | cons a as =>
            rw [hsp] at h2
            exact List.mem_cons_of_mem a h2
        exact ih p this

theorem removeCr_id (l : List Char) (h : '\r' ∉ l) : removeCr l = l := by
  unfold removeCr
  rw [List.filter_eq_self]
  intro a ha
  simp only [decide_eq_true_eq, ne_eq]
  intro hcontra
  exact h (hcontra ▸ ha)

theorem saveContent_eq_join (lines : List Line) (hne : lines ≠ []) :
    saveContent lines =
      ((lines.dropLast.map (fun l => l ++ ['\n'])).flatten) ++ (lines.getLast?.getD []) := by
  induction lines with
  | nil => exact absurd rfl hne
  | cons l ls ih =>
    cases ls with
    | nil => simp [saveContent]
    | cons l2 ls2 =>
      have := ih (by simp)
      simp only [saveContent, List.dropLast_cons_of_ne_nil (List.cons_ne_nil l2 ls2),
        List.map_cons, List.flatten_cons, List.getLast?_cons_cons, List.append_assoc] at this ⊢
      rw [this]
      simp

theorem count_saveContent (lines : List Line) (hne : lines ≠ [])
    (h : ∀ l ∈ lines, '\n' ∉ l) :
    (saveContent lines).count '\n' = lines.length - 1 := by
  induction lines with
  | nil => exact absurd rfl hne
  | cons l ls ih =>
    have hl : (l : List Char).count '\n' = 0 :=
      List.count_eq_zero.mpr (h l (List.mem_cons_self l ls))
    cases ls with
    | nil => simpa [saveContent] using hl
    | cons l2 ls2 =>
      have hrest := ih (by simp) (fun x hx => h x (List.mem_cons_of_mem l hx))
      simp only [saveContent] at hrest ⊢
      rw [List.count_append, hl, List.count_cons]
      simp only [hrest]
      simp [List.length_cons]

theorem splitOnChar_saveContent (lines : List Line) (hne : lines ≠ [])
    (h : ∀ l ∈ lines, '\n' ∉ l) :
    splitOnChar '\n' (saveContent lines) = lines := by
  induction lines with
  | nil => exact absurd rfl hne
  | cons l ls ih =>
    cases ls with
    | nil => exact splitOnChar_no_sep '\n' l (h l (List.mem_cons_self l []))
    | cons l2 ls2 =>
      have hrest := ih (by simp) (fun x hx => h x (List.mem_cons_of_mem l hx))
      simp only [saveContent] at hrest ⊢
      rw [show (l ++ '\n' :: saveContent (l2 :: ls2)) = l ++ '\n' :: saveContent (l2 :: ls2) from rfl,
        splitOnChar_append_sep '\n' l _ (h l (List.mem_cons_self l _)), hrest]

end BufferLemmas

end Bvim

namespace Bvim

section ScanLemmas

open Window

theorem firstNonWhitespace_some (l : Line) (i : Nat)
    (h : firstNonWhitespace l = some i) :
    i < l.length ∧ is_whitespace (l.getD i ' ') = false ∧
      ∀ j, j < i → is_whitespace (l.getD j ' ') = true := by
  induction l generalizing i with
  | nil => simp [firstNonWhitespace] at h
  | cons c cs ih =>
    simp only [firstNonWhitespace] at h
    by_cases hc : is_whitespace c
    · rw [if_pos hc] at h
      cases hfc : firstNonWhitespace cs with
      | none => rw [hfc] at h; simp at h
      | some k =>
        rw [hfc] at h
        simp only [Option.map, Option.some.injEq] at h
        obtain ⟨hk1, hk2, hk3⟩ := ih k hfc
        have hik : i = k + 1 := h.symm
        subst hik
        refine ⟨by simpa using hk1, by simpa using hk2, ?_⟩
        intro j hj
        cases j with
        | zero => simpa using hc
        | succ j' => simpa using hk3 j' (by omega)
    · rw [if_neg hc] at h
      have : i = 0 := by simpa using h.symm
      subst this
      exact ⟨by simp, by simpa using hc, fun j hj => absurd hj (by omega)⟩

theorem firstNonWhitespace_none (l : Line)
    (h : firstNonWhitespace l = none) : ∀ c ∈ l, is_whitespace c = true := by
  induction l with
  | nil => simp
  | cons c cs ih =>
    simp only [firstNonWhitespace] at h
    by_cases hc : is_whitespace c
    · rw [if_pos hc] at h
      intro a ha
      rcases List.mem_cons.mp ha with h1 | h2
      · subst h1; exact hc
      · exact ih (by cases hfc : firstNonWhitespace cs <;> simp [hfc] at h ⊢) a h2
    · rw [if_neg hc] at h
      simp at h

end ScanLemmas

end Bvim

namespace Bvim

/-- C1: at end of line 0 of the two-line buffer ["a", "b"] a next line
exists, yet delete_char leaves the window unchanged and does not mark
the buffer dirty, because the source guards the merge with
cursor.y < lines.len() - 2 instead of lines.len() - 1.  The claimed
merge into ["ab"] does not happen. -/
theorem delete_char_skips_merge_before_last_line :
    Window.delete_char ⟨⟨[['a'], ['b']], none, false⟩, ⟨0, 0⟩, ⟨1, 0⟩, ⟨10, 5⟩⟩ =
      some ⟨⟨[['a'], ['b']], none, false⟩, ⟨0, 0⟩, ⟨1, 0⟩, ⟨10, 5⟩⟩ := by
  decide

/-- C4 counterexample: on the all-whitespace line "  " with the cursor
at column 0, move_to_first_char_in_line leaves the cursor at column 0,
not at the line's character length 2 as the claim states. -/
theorem move_to_first_char_all_whitespace_counterexample :
    (Window.move_to_first_char_in_line
        ⟨⟨[[' ', ' ']], none, false⟩, ⟨0, 0⟩, ⟨0, 0⟩, ⟨10, 5⟩⟩).cursor.x ≠ 2 ∧
    (Window.move_to_first_char_in_line
        ⟨⟨[[' ', ' ']], none, false⟩, ⟨0, 0⟩, ⟨0, 0⟩, ⟨10, 5⟩⟩).cursor.x = 0 := by
  decide

/-- C4 amended: move_to_first_char_in_line sets the cursor column to
the index of the first non-whitespace character of the current line
when one exists; when the line is entirely whitespace (including the
empty line) the scan sets nothing and the cursor column is unchanged. -/
theorem move_to_first_char_in_line_spec (w : Window) :
    (∀ i, Window.firstNonWhitespace (w.buffer.lines.getD w.cursor.y []) = some i →
        (w.move_to_first_char_in_line).cursor.x = i ∧
        Window.is_whitespace ((w.buffer.lines.getD w.cursor.y []).getD i ' ') = false ∧
        ∀ j, j < i →
          Window.is_whitespace ((w.buffer.lines.getD w.cursor.y []).getD j ' ') = true) ∧
    (Window.firstNonWhitespace (w.buffer.lines.getD w.cursor.y []) = none →
        (∀ c ∈ w.buffer.lines.getD w.cursor.y [], Window.is_whitespace c = true) ∧
        (w.move_to_first_char_in_line).cursor.x = w.cursor.x) := by
  constructor
  · intro i hi
    obtain ⟨h1, h2, h3⟩ := firstNonWhitespace_some _ i hi
    refine ⟨?_, h2, h3⟩
    simp only [Window.move_to_first_char_in_line, hi]
  · intro hn
    refine ⟨firstNonWhitespace_none _ hn, ?_⟩
    simp only [Window.move_to_first_char_in_line, hn]

/-- C4 witness: on the line "  x" the scan finds index 2 and the cursor
lands there. -/
theorem move_to_first_char_in_line_spec_witness :
    (Window.move_to_first_char_in_line
        ⟨⟨[[' ', ' ', 'x']], none, false⟩, ⟨0, 0⟩, ⟨1, 0⟩, ⟨10, 5⟩⟩).cursor.x = 2 :=
  ((move_to_first_char_in_line_spec
      ⟨⟨[[' ', ' ', 'x']], none, false⟩, ⟨0, 0⟩, ⟨1, 0⟩, ⟨10, 5⟩⟩).1 2 (by decide)).1

/-- C7: saving a buffer with no bound path is a successful call whose
result is the error-severity notification "Could not save: No file
name"; the buffer, its dirty flag included, is returned unchanged and
nothing is written. -/
theorem save_no_path_spec (b : Buffer) (hp : b.path = none) :
    Buffer.save b = (b, ⟨"Could not save: No file name", LogLevel.error⟩, none) := by
  unfold Buffer.save
  rw [hp]

/-- C7 witness: a concrete dirty path-less buffer stays dirty and gets
the error notification. -/
theorem save_no_path_spec_witness :
    Buffer.save ⟨[['x']], none, true⟩ =
      (⟨[['x']], none, true⟩, ⟨"Could not save: No file name", LogLevel.error⟩, none) :=
  save_no_path_spec ⟨[['x']], none, true⟩ rfl

/-- C6 counterexample: saving a one-line buffer bound to path "a"
produces the message with the path in double quotes, so the text is not
the claimed "a 1L written". -/
theorem save_message_counterexample :
    (Buffer.save ⟨[['x']], some "a", true⟩).2.1.text = "\"a\" 1L written" ∧
    (Buffer.save ⟨[['x']], some "a", true⟩).2.1.text ≠ "a 1L written" := by
  decide

/-- C6 amended: a successful save of a buffer with a bound path writes
every line except the last followed by one newline and the last line
bare (so a buffer of N newline-free lines yields exactly N - 1 newline
characters), clears the dirty flag, and returns an info-severity
notification whose text is the path in double quotes followed by
" <N>L written" with N the line count. -/
theorem save_success_spec (b : Buffer) (p : String) (hp : b.path = some p)
    (hne : b.lines ≠ []) (hnl : ∀ l ∈ b.lines, '\n' ∉ l) :
    (Buffer.save b).1 = { b with changed := false } ∧
    (Buffer.save b).2.2 = some (Buffer.saveContent b.lines) ∧
    Buffer.saveContent b.lines =
      ((b.lines.dropLast.map (fun l => l ++ ['\n'])).flatten) ++ (b.lines.getLast?.getD []) ∧
    (Buffer.saveContent b.lines).count '\n' = b.lines.length - 1 ∧
    (Buffer.save b).2.1 =
      ⟨"\"" ++ p ++ "\" " ++ toString b.lines.length ++ "L written", LogLevel.info⟩ := by
  unfold Buffer.save
  rw [hp]
  exact ⟨rfl, rfl, saveContent_eq_join b.lines hne, count_saveContent b.lines hne hnl, rfl⟩

/-- C6 witness: the amended save behaviour at the concrete two-line
buffer ["ab", "c"] bound to path "f". -/
theorem save_success_spec_witness :
    (Buffer.save ⟨[['a', 'b'], ['c']], some "f", true⟩).1 =
      { lines := [['a', 'b'], ['c']], path := some "f", changed := false } ∧
    (Buffer.save ⟨[['a', 'b'], ['c']], some "f", true⟩).2.2 =
      some (Buffer.saveContent [['a', 'b'], ['c']]) ∧
    Buffer.saveContent [['a', 'b'], ['c']] =
      (([['a', 'b'], ['c']].dropLast.map (fun l => l ++ ['\n'])).flatten) ++
        ([['a', 'b'], ['c']].getLast?.getD []) ∧
    (Buffer.saveContent [['a', 'b'], ['c']]).count '\n' = [['a', 'b'], ['c']].length - 1 ∧
    (Buffer.save ⟨[['a', 'b'], ['c']], some "f", true⟩).2.1 =
      ⟨"\"" ++ "f" ++ "\" " ++ toString [['a', 'b'], ['c']].length ++ "L written",
        LogLevel.info⟩ :=
  save_success_spec ⟨[['a', 'b'], ['c']], some "f", true⟩ "f" rfl (by decide) (by decide)

/-- C5: for a buffer with a bound path whose lines contain no carriage
return and no newline, the content written by save, read back and split
as new_from_file does, reproduces the lines sequence exactly. -/
theorem save_load_round_trip (b : Buffer) (p : String) (hp : b.path = some p)
    (hne : b.lines ≠ []) (hnl : ∀ l ∈ b.lines, '\n' ∉ l) (hcr : ∀ l ∈ b.lines, '\r' ∉ l) :
    (Buffer.save b).2.2 = some (Buffer.saveContent b.lines) ∧
    (Buffer.new_from_file p (Buffer.saveContent b.lines)).lines = b.lines := by
  constructor
  · unfold Buffer.save
    rw [hp]
  · show Buffer.linesFromContent (Buffer.saveContent b.lines) = b.lines
    unfold Buffer.linesFromContent
    rw [splitOnChar_saveContent b.lines hne hnl]
    have h1 : List.map Buffer.removeCr b.lines = List.map id b.lines :=
      List.map_congr_left (fun l hl => removeCr_id l (hcr l hl))
    rw [h1, List.map_id]

/-- C5 witness: the round trip at the concrete buffer ["hi", "", "x"]
bound to path "f". -/
theorem save_load_round_trip_witness :
    (Buffer.save ⟨[['h', 'i'], [], ['x']], some "f", false⟩).2.2 =
      some (Buffer.saveContent [['h', 'i'], [], ['x']]) ∧
    (Buffer.new_from_file "f" (Buffer.saveContent [['h', 'i'], [], ['x']])).lines =
      [['h', 'i'], [], ['x']] :=
  save_load_round_trip ⟨[['h', 'i'], [], ['x']], some "f", false⟩ "f" rfl (by decide)
    (by decide) (by decide)

end Bvim

namespace Bvim

/-- C8: KeyMap::handle resolves in this order: a literal character with
no modifiers or exactly shift resolves immediately to InsertChar in
Insert mode and InsertCharCommand in Command mode, regardless of table
entries; in every other case the exact-modifier table entry is
returned if present, else the any-modifier entry, else nothing. -/
theorem keymap_handle_spec (km : KeyMap) (mode : Mode) (ev : KeyEvent) :
    ((ev.modifiers = KeyModifiers.empty ∨ ev.modifiers = KeyModifiers.shiftOnly) →
      ∀ c, ev.code = KeyCode.char c →
        (mode = Mode.insert →
          KeyMap.handle km mode ev = some [Action.insertChar c]) ∧
        (mode = Mode.command →
          KeyMap.handle km mode ev = some [Action.insertCharCommand c])) ∧
    (¬((ev.modifiers = KeyModifiers.empty ∨ ev.modifiers = KeyModifiers.shiftOnly) ∧
        (∃ c, ev.code = KeyCode.char c) ∧ (mode = Mode.insert ∨ mode = Mode.command)) →
      KeyMap.handle km mode ev =
        match KeyMap.get km ⟨mode, ev.code, Modifiers.Match ev.modifiers⟩ with
        | some res => some res
        | none => KeyMap.get km ⟨mode, ev.code, Modifiers.any⟩) := by
  obtain ⟨code, mods⟩ := ev
  constructor
  · intro hmods c hc
    subst hc
    have hcond : (KeyModifiers.is_empty mods || mods = KeyModifiers.shiftOnly) = true := by
      rcases hmods with h | h <;> subst h <;> decide
    constructor <;> intro hm <;> subst hm <;>
      simp [KeyMap.handle, KeyMap.passThrough, hcond]
  · intro hneg
    have hpt : KeyMap.passThrough mode ⟨code, mods⟩ = none := by
      unfold KeyMap.passThrough
      by_cases hmods : mods = KeyModifiers.empty ∨ mods = KeyModifiers.shiftOnly
      · have hcond : (KeyModifiers.is_empty mods || mods = KeyModifiers.shiftOnly) = true := by
          rcases hmods with h | h <;> subst h <;> decide
        cases code with
        | char c =>
          have hmode : ¬(mode = Mode.insert ∨ mode = Mode.command) :=
            fun hm => hneg ⟨hmods, ⟨c, rfl⟩, hm⟩
          cases mode with
          | normal => simp [hcond]
          | insert => exact absurd (Or.inl rfl) hmode
          | command => exact absurd (Or.inr rfl) hmode
        | esc => simp [hcond]
        | enter => simp [hcond]
        | backspace => simp [hcond]
        | delete => simp [hcond]
        | up => simp [hcond]
        | down => simp [hcond]
        | left => simp [hcond]
        | right => simp [hcond]
        | home => simp [hcond]
        | endKey => simp [hcond]
      · have h1 : KeyModifiers.is_empty mods = false := by
          unfold KeyModifiers.is_empty
          simp only [decide_eq_false_iff_not]
          exact fun h => hmods (Or.inl h)
        have h2 : (decide (mods = KeyModifiers.shiftOnly)) = false := by
          simp only [decide_eq_false_iff_not]
          exact fun h => hmods (Or.inr h)
        simp [h1, h2]
    simp only [KeyMap.handle, hpt]

/-- C8 witness: with an empty table, the unmodified literal 'a' in
Insert mode resolves to InsertChar 'a'. -/
theorem keymap_handle_spec_witness :
    KeyMap.handle [] Mode.insert ⟨KeyCode.char 'a', KeyModifiers.empty⟩ =
      some [Action.insertChar 'a'] :=
  ((keymap_handle_spec [] Mode.insert ⟨KeyCode.char 'a', KeyModifiers.empty⟩).1
    (Or.inl rfl) 'a' rfl).1 rfl

end Bvim

namespace Bvim

section ListHelpers

theorem getD_set_self {α} (l : List α) (i : Nat) (a d : α) (h : i < l.length) :
    (l.set i a).getD i d = a := by
  rw [List.getD_eq_getElem?_getD, List.getElem?_set_self h]
  rfl

theorem getD_set_ne {α} (l : List α) (i j : Nat) (a d : α) (h : i ≠ j) :
    (l.set i a).getD j d = l.getD j d := by
  rw [List.getD_eq_getElem?_getD, List.getElem?_set_ne h, ← List.getD_eq_getElem?_getD]

theorem getD_eraseIdx_lt {α} (l : List α) (i j : Nat) (d : α) (h : j < i) :
    (l.eraseIdx i).getD j d = l.getD j d := by
  induction l generalizing i j with
  | nil => rfl
  | cons c cs ih =>
    cases i with
    | zero => omega
    | succ i' =>
      cases j with
      | zero => rfl
      | succ j' => exact ih i' j' (by omega)

theorem getD_insertIdx_self {α} (l : List α) (n : Nat) (a d : α) (h : n ≤ l.length) :
    (l.insertIdx n a).getD n d = a := by
  rw [List.getD_eq_getElem?_getD,
    List.getElem?_eq_getElem (by rw [List.length_insertIdx n l h]; omega),
    List.getElem_insertIdx_self l a n h]
  rfl

theorem mem_insertIdx_any {α} (l : List α) (n : Nat) (a x : α)
    (h : x ∈ l.insertIdx n a) : x = a ∨ x ∈ l := by
  induction l generalizing n with
  | nil =>
    cases n with
    | zero => simpa [List.insertIdx] using h
    | succ n' => simp [List.insertIdx] at h
  | cons c cs ih =>
    cases n with
    | zero =>
      rw [List.insertIdx_zero] at h
      rcases List.mem_cons.mp h with h1 | h2
      · exact Or.inl h1
      · exact Or.inr h2
    | succ n' =>
      rw [List.insertIdx_succ_cons] at h
      rcases List.mem_cons.mp h with h1 | h2
      · exact Or.inr (h1 ▸ List.mem_cons_self c cs)
      · rcases ih n' h2 with h3 | h4
        · exact Or.inl h3
        · exact Or.inr (List.mem_cons_of_mem c h4)

theorem length_eraseIdx_lt {α} (l : List α) (i : Nat) (h : i < l.length) :
    (l.eraseIdx i).length = l.length - 1 := by
  rw [List.length_eraseIdx]
  simp [h]

end ListHelpers

section InvCLemmas

open Window

theorem invC_move_up (w : Window) (h : InvC w) : InvC w.move_up := by
  obtain ⟨h1, h2, h3⟩ := h
  by_cases hy : w.cursor.y > 0
  · unfold Window.move_up
    rw [if_pos hy]
    exact ⟨h1,
      show w.cursor.y - 1 < w.buffer.lines.length by omega,
      show min w.cursor.x (w.buffer.line_length (w.cursor.y - 1)) ≤
          w.buffer.line_length (w.cursor.y - 1) from min_le_right _ _⟩
  · unfold Window.move_up
    rw [if_neg hy]
    exact ⟨h1, h2, h3⟩

theorem invC_move_down (w : Window) (h : InvC w) : InvC w.move_down := by
  obtain ⟨h1, h2, h3⟩ := h
  by_cases hy : w.cursor.y < w.buffer.lines.length - 1
  · unfold Window.move_down
    rw [if_pos hy]
    exact ⟨h1,
      show w.cursor.y + 1 < w.buffer.lines.length by omega,
      show min w.cursor.x (w.buffer.line_length (w.cursor.y + 1)) ≤
          w.buffer.line_length (w.cursor.y + 1) from min_le_right _ _⟩
  · unfold Window.move_down
    rw [if_neg hy]
    exact ⟨h1, h2, h3⟩

theorem invC_move_left (w : Window) (h : InvC w) : InvC w.move_left := by
  obtain ⟨h1, h2, h3⟩ := h
  by_cases hx : w.cursor.x > 0
  · unfold Window.move_left
    rw [if_pos hx]
    exact ⟨h1, h2,
      show w.cursor.x - 1 ≤ w.buffer.line_length w.cursor.y by omega⟩
  · by_cases hy : w.cursor.y > 0
    · unfold Window.move_left
      rw [if_neg hx, if_pos hy]
      exact ⟨h1,
        show w.cursor.y - 1 < w.buffer.lines.length by omega,
        show w.buffer.line_length (w.cursor.y - 1) ≤
            w.buffer.line_length (w.cursor.y - 1) from le_refl _⟩
    · unfold Window.move_left
      rw [if_neg hx, if_neg hy]
      exact ⟨h1, h2, h3⟩

theorem invC_move_right (w : Window) (h : InvC w) : InvC w.move_right := by
  obtain ⟨h1, h2, h3⟩ := h
  by_cases hx : w.cursor.x < w.buffer.line_length w.cursor.y
  · unfold Window.move_right
    rw [if_pos hx]
    exact ⟨h1, h2,
      show w.cursor.x + 1 ≤ w.buffer.line_length w.cursor.y by omega⟩
  · by_cases hy : w.cursor.y < w.buffer.lines.length - 1
    · unfold Window.move_right
      rw [if_neg hx, if_pos hy]
      exact ⟨h1,
        show w.cursor.y + 1 < w.buffer.lines.length by omega,
        Nat.zero_le _⟩
    · unfold Window.move_right
      rw [if_neg hx, if_neg hy]
      exact ⟨h1, h2, h3⟩

theorem invC_move_to_start_of_line (w : Window) (h : InvC w) :
    InvC w.move_to_start_of_line := by
  obtain ⟨h1, h2, h3⟩ := h
  exact ⟨h1, h2, Nat.zero_le _⟩

theorem invC_move_to_end_of_line (w : Window) (h : InvC w) :
    InvC w.move_to_end_of_line := by
  obtain ⟨h1, h2, h3⟩ := h
  exact ⟨h1, h2,
    show w.buffer.line_length w.cursor.y ≤ w.buffer.line_length w.cursor.y from le_refl _⟩

theorem invC_move_to_first_char_in_line (w : Window) (h : InvC w) :
    InvC w.move_to_first_char_in_line := by
  obtain ⟨h1, h2, h3⟩ := h
  refine ⟨h1, h2, ?_⟩
  show (match firstNonWhitespace (w.buffer.lines.getD w.cursor.y []) with
        | some i => i
        | none => w.cursor.x) ≤ w.buffer.line_length w.cursor.y
  cases hf : firstNonWhitespace (w.buffer.lines.getD w.cursor.y []) with
  | none => exact h3
  | some i =>
    have := (firstNonWhitespace_some _ i hf).1
    simp only [Buffer.line_length]
    omega

theorem invC_insert_char (w : Window) (c : Char) (h : InvC w) :
    InvC (w.insert_char c) := by
  obtain ⟨h1, h2, h3⟩ := h
  have h3' : w.cursor.x ≤ (w.buffer.lines.getD w.cursor.y []).length := h3
  by_cases hc : c = '\n'
  · unfold Window.insert_char
    rw [if_pos hc]
    refine ⟨?_, ?_, Nat.zero_le _⟩
    · show ((w.buffer.lines.set w.cursor.y _).insertIdx (w.cursor.y + 1) _) ≠ []
      apply List.ne_nil_of_length_pos
      rw [List.length_insertIdx _ _ (by rw [List.length_set]; omega)]
      omega
    · show w.cursor.y + 1 <
        ((w.buffer.lines.set w.cursor.y _).insertIdx (w.cursor.y + 1) _).length
      rw [List.length_insertIdx _ _ (by rw [List.length_set]; omega), List.length_set]
      omega
  · unfold Window.insert_char
    rw [if_neg hc]
    refine ⟨?_, ?_, ?_⟩
    · show (w.buffer.lines.set w.cursor.y _) ≠ []
      apply List.ne_nil_of_length_pos
      rw [List.length_set]
      exact List.length_pos.mpr h1
    · show w.cursor.y < (w.buffer.lines.set w.cursor.y _).length
      rw [List.length_set]
      exact h2
    · show w.cursor.x + 1 ≤
        ((w.buffer.lines.set w.cursor.y
          ((w.buffer.lines.getD w.cursor.y []).insertIdx
            (min w.cursor.x (w.buffer.lines.getD w.cursor.y []).length) c)).getD
              w.cursor.y []).length
      rw [getD_set_self _ _ _ _ h2,
        List.length_insertIdx _ _ (min_le_right _ _)]
      omega

theorem invC_remove_char (w : Window) (h : InvC w) : InvC w.remove_char := by
  obtain ⟨h1, h2, h3⟩ := h
  have h3' : w.cursor.x ≤ (w.buffer.lines.getD w.cursor.y []).length := h3
  by_cases hx : w.cursor.x = 0
  · by_cases hy : w.cursor.y > 0
    · unfold Window.remove_char
      rw [if_pos hx, if_pos hy]
      have hlen1 : (w.buffer.lines.eraseIdx w.cursor.y).length =
          w.buffer.lines.length - 1 := length_eraseIdx_lt _ _ h2
      have hylt : w.cursor.y - 1 < (w.buffer.lines.eraseIdx w.cursor.y).length := by
        rw [hlen1]; omega
      refine ⟨?_, ?_, ?_⟩
      · show ((w.buffer.lines.eraseIdx w.cursor.y).set (w.cursor.y - 1) _) ≠ []
        apply List.ne_nil_of_length_pos
        rw [List.length_set, hlen1]
        omega
      · show w.cursor.y - 1 <
          ((w.buffer.lines.eraseIdx w.cursor.y).set (w.cursor.y - 1) _).length
        rw [List.length_set, hlen1]
        omega
      · show ((w.buffer.lines.eraseIdx w.cursor.y).getD (w.cursor.y - 1) []).length ≤
          (((w.buffer.lines.eraseIdx w.cursor.y).set (w.cursor.y - 1)
            (((w.buffer.lines.eraseIdx w.cursor.y).getD (w.cursor.y - 1) []) ++
              (w.buffer.lines.getD w.cursor.y []))).getD (w.cursor.y - 1) []).length
        rw [getD_set_self _ _ _ _ hylt, List.length_append]
        omega
    · unfold Window.remove_char
      rw [if_pos hx, if_neg hy]
      exact ⟨h1, h2, h3⟩
  · unfold Window.remove_char
    rw [if_neg hx]
    refine ⟨?_, ?_, ?_⟩
    · show (w.buffer.lines.set w.cursor.y _) ≠ []
      apply List.ne_nil_of_length_pos
      rw [List.length_set]
      exact List.length_pos.mpr h1
    · show w.cursor.y < (w.buffer.lines.set w.cursor.y _).length
      rw [List.length_set]
      exact h2
    · show w.cursor.x - 1 ≤
        ((w.buffer.lines.set w.cursor.y
          ((w.buffer.lines.getD w.cursor.y []).eraseIdx (w.cursor.x - 1))).getD
            w.cursor.y []).length
      rw [getD_set_self _ _ _ _ h2, length_eraseIdx_lt _ _ (by omega)]
      omega

theorem invC_delete_char (w w' : Window) (h : InvC w)
    (hd : w.delete_char = some w') : InvC w' := by
  obtain ⟨h1, h2, h3⟩ := h
  have h3' : w.cursor.x ≤ (w.buffer.lines.getD w.cursor.y []).length := h3
  unfold Window.delete_char at hd
  by_cases hx : w.cursor.x = w.buffer.line_length w.cursor.y
  · rw [if_pos hx] at hd
    by_cases hlen : w.buffer.lines.length < 2
    · rw [if_pos hlen] at hd
      exact absurd hd (by simp)
    · rw [if_neg hlen] at hd
      by_cases hmerge : w.cursor.y < w.buffer.lines.length - 2
      · rw [if_pos hmerge] at hd
        have hy1 : w.cursor.y + 1 < w.buffer.lines.length := by omega
        have hlen1 : (w.buffer.lines.eraseIdx (w.cursor.y + 1)).length =
            w.buffer.lines.length - 1 := length_eraseIdx_lt _ _ hy1
        have hylt : w.cursor.y < (w.buffer.lines.eraseIdx (w.cursor.y + 1)).length := by
          rw [hlen1]; omega
        cases hd
        refine ⟨?_, ?_, ?_⟩
        · show ((w.buffer.lines.eraseIdx (w.cursor.y + 1)).set w.cursor.y _) ≠ []
          apply List.ne_nil_of_length_pos
          rw [List.length_set, hlen1]
          omega
        · show w.cursor.y <
            ((w.buffer.lines.eraseIdx (w.cursor.y + 1)).set w.cursor.y _).length
          rw [List.length_set, hlen1]
          omega
        · show w.cursor.x ≤
            (((w.buffer.lines.eraseIdx (w.cursor.y + 1)).set w.cursor.y
              (((w.buffer.lines.eraseIdx (w.cursor.y + 1)).getD w.cursor.y []) ++
                (w.buffer.lines.getD (w.cursor.y + 1) []))).getD w.cursor.y []).length
          rw [getD_set_self _ _ _ _ hylt, List.length_append,
            getD_eraseIdx_lt _ _ _ _ (by omega)]
          omega
      · rw [if_neg hmerge] at hd
        cases hd
        exact ⟨h1, h2, h3⟩
  · rw [if_neg hx] at hd
    by_cases hx2 : w.cursor.x < (w.buffer.lines.getD w.cursor.y []).length
    · rw [if_pos hx2] at hd
      cases hd
      refine ⟨?_, ?_, ?_⟩
      · show (w.buffer.lines.set w.cursor.y _) ≠ []
        apply List.ne_nil_of_length_pos
        rw [List.length_set]
        exact List.length_pos.mpr h1
      · show w.cursor.y < (w.buffer.lines.set w.cursor.y _).length
        rw [List.length_set]
        exact h2
      · show w.cursor.x ≤
          ((w.buffer.lines.set w.cursor.y
            ((w.buffer.lines.getD w.cursor.y []).eraseIdx w.cursor.x)).getD
              w.cursor.y []).length
        rw [getD_set_self _ _ _ _ h2, length_eraseIdx_lt _ _ hx2]
        omega
    · rw [if_neg hx2] at hd
      exact absurd hd (by simp)

theorem invC_set_bounds (w : Window) (b : WindowBounds) (h : InvC w) :
    InvC (w.set_bounds b) := by
  obtain ⟨h1, h2, h3⟩ := h
  exact ⟨h1, h2, h3⟩

end InvCLemmas

end Bvim

namespace Bvim

section AxisHelpers

theorem axis_left_set (s c size : Nat) (h0 : 0 < size) (hc : c < s + size) :
    (if c < s then c else s) ≤ c ∧ c < (if c < s then c else s) + size := by
  split_ifs <;> omega

theorem axis_dec (s c size : Nat) (h0 : 0 < size) (hs : s ≤ c + 1) (hc : c < s + size) :
    (if c < s then s - 1 else s) ≤ c ∧ c < (if c < s then s - 1 else s) + size := by
  split_ifs <;> omega

theorem axis_inc (s c size : Nat) (h0 : 0 < size) (hs : s ≤ c) (hc : c ≤ s + size) :
    (if c ≥ s + size then s + 1 else s) ≤ c ∧
    c < (if c ≥ s + size then s + 1 else s) + size := by
  split_ifs <;> omega

theorem axis_jump (s c size : Nat) (h0 : 0 < size) (hs : s ≤ c) :
    (if c ≥ s + size then c - size + 1 else s) ≤ c ∧
    c < (if c ≥ s + size then c - size + 1 else s) + size := by
  split_ifs <;> omega

theorem axis_both (s c size : Nat) (h0 : 0 < size) :
    (if c ≥ (if c < s then c else s) + size then c - size + 1
     else (if c < s then c else s)) ≤ c ∧
    c < (if c ≥ (if c < s then c else s) + size then c - size + 1
         else (if c < s then c else s)) + size := by
  split_ifs <;> omega

theorem axis_clamp (s c size : Nat) (h0 : 0 < size) (hs : s ≤ c) :
    (if c - s ≥ size then c - size + 1 else s) ≤ c ∧
    c < (if c - s ≥ size then c - size + 1 else s) + size := by
  split_ifs <;> omega

end AxisHelpers

section InvLemmas

open Window

theorem inv_move_up (w : Window) (h : Inv w) : Inv w.move_up := by
  obtain ⟨h1, h2, h3, h4, h5, h6, h7, h8, h9⟩ := h
  obtain ⟨c1, c2, c3⟩ := invC_move_up w ⟨h1, h2, h3⟩
  by_cases hy : w.cursor.y > 0
  · unfold Window.move_up at c1 c2 c3 ⊢
    rw [if_pos hy] at c1 c2 c3 ⊢
    refine ⟨c1, c2, c3, ?_, ?_, ?_, ?_, h8, h9⟩
    · exact (axis_left_set w.scroll.x
        (min w.cursor.x (w.buffer.line_length (w.cursor.y - 1))) w.bounds.width h8
        (by omega)).1
    · exact (axis_left_set w.scroll.x
        (min w.cursor.x (w.buffer.line_length (w.cursor.y - 1))) w.bounds.width h8
        (by omega)).2
    · exact (axis_dec w.scroll.y (w.cursor.y - 1) w.bounds.height h9
        (by omega) (by omega)).1
    · exact (axis_dec w.scroll.y (w.cursor.y - 1) w.bounds.height h9
        (by omega) (by omega)).2
  · unfold Window.move_up
    rw [if_neg hy]
    exact ⟨h1, h2, h3, h4, h5, h6, h7, h8, h9⟩

theorem inv_move_down (w : Window) (h : Inv w) : Inv w.move_down := by
  obtain ⟨h1, h2, h3, h4, h5, h6, h7, h8, h9⟩ := h
  obtain ⟨c1, c2, c3⟩ := invC_move_down w ⟨h1, h2, h3⟩
  by_cases hy : w.cursor.y < w.buffer.lines.length - 1
  · unfold Window.move_down at c1 c2 c3 ⊢
    rw [if_pos hy] at c1 c2 c3 ⊢
    refine ⟨c1, c2, c3, ?_, ?_, ?_, ?_, h8, h9⟩
    · exact (axis_left_set w.scroll.x
        (min w.cursor.x (w.buffer.line_length (w.cursor.y + 1))) w.bounds.width h8
        (by omega)).1
    · exact (axis_left_set w.scroll.x
        (min w.cursor.x (w.buffer.line_length (w.cursor.y + 1))) w.bounds.width h8
        (by omega)).2
    · exact (axis_inc w.scroll.y (w.cursor.y + 1) w.bounds.height h9
        (by omega) (by omega)).1
    · exact (axis_inc w.scroll.y (w.cursor.y + 1) w.bounds.height h9
        (by omega) (by omega)).2
  · unfold Window.move_down
    rw [if_neg hy]
    exact ⟨h1, h2, h3, h4, h5, h6, h7, h8, h9⟩

theorem inv_move_left (w : Window) (h : Inv w) : Inv w.move_left := by
  obtain ⟨h1, h2, h3, h4, h5, h6, h7, h8, h9⟩ := h
  obtain ⟨c1, c2, c3⟩ := invC_move_left w ⟨h1, h2, h3⟩
  by_cases hx : w.cursor.x > 0
  · unfold Window.move_left at c1 c2 c3 ⊢
    rw [if_pos hx] at c1 c2 c3 ⊢
    refine ⟨c1, c2, c3, ?_, ?_, h6, h7, h8, h9⟩
    · exact (axis_dec w.scroll.x (w.cursor.x - 1) w.bounds.width h8
        (by omega) (by omega)).1
    · exact (axis_dec w.scroll.x (w.cursor.x - 1) w.bounds.width h8
        (by omega) (by omega)).2
  · by_cases hy : w.cursor.y > 0
    · unfold Window.move_left at c1 c2 c3 ⊢
      rw [if_neg hx, if_pos hy] at c1 c2 c3 ⊢
      refine ⟨c1, c2, c3, ?_, ?_, ?_, ?_, h8, h9⟩
      · exact (axis_jump w.scroll.x (w.buffer.line_length (w.cursor.y - 1))
          w.bounds.width h8 (by omega)).1
      · exact (axis_jump w.scroll.x (w.buffer.line_length (w.cursor.y - 1))
          w.bounds.width h8 (by omega)).2
      · exact (axis_dec w.scroll.y (w.cursor.y - 1) w.bounds.height h9
          (by omega) (by omega)).1
      · exact (axis_dec w.scroll.y (w.cursor.y - 1) w.bounds.height h9
          (by omega) (by omega)).2
    · unfold Window.move_left
      rw [if_neg hx, if_neg hy]
      exact ⟨h1, h2, h3, h4, h5, h6, h7, h8, h9⟩

theorem inv_move_right (w : Window) (h : Inv w) : Inv w.move_right := by
  obtain ⟨h1, h2, h3, h4, h5, h6, h7, h8, h9⟩ := h
  obtain ⟨c1, c2, c3⟩ := invC_move_right w ⟨h1, h2, h3⟩
  by_cases hx : w.cursor.x < w.buffer.line_length w.cursor.y
  · unfold Window.move_right at c1 c2 c3 ⊢
    rw [if_pos hx] at c1 c2 c3 ⊢
    refine ⟨c1, c2, c3, ?_, ?_, h6, h7, h8, h9⟩
    · exact (axis_inc w.scroll.x (w.cursor.x + 1) w.bounds.width h8
        (by omega) (by omega)).1
    · exact (axis_inc w.scroll.x (w.cursor.x + 1) w.bounds.width h8
        (by omega) (by omega)).2
  · by_cases hy : w.cursor.y < w.buffer.lines.length - 1
    · unfold Window.move_right at c1 c2 c3 ⊢
      rw [if_neg hx, if_pos hy] at c1 c2 c3 ⊢
      refine ⟨c1, c2, c3, Nat.le_refl 0,
        show (0 : Nat) < 0 + w.bounds.width by omega, ?_, ?_, h8, h9⟩
      · exact (axis_inc w.scroll.y (w.cursor.y + 1) w.bounds.height h9
          (by omega) (by omega)).1
      · exact (axis_inc w.scroll.y (w.cursor.y + 1) w.bounds.height h9
          (by omega) (by omega)).2
    · unfold Window.move_right
      rw [if_neg hx, if_neg hy]
      exact ⟨h1, h2, h3, h4, h5, h6, h7, h8, h9⟩

theorem inv_move_to_start_of_line (w : Window) (h : Inv w) :
    Inv w.move_to_start_of_line := by
  obtain ⟨h1, h2, h3, h4, h5, h6, h7, h8, h9⟩ := h
  exact ⟨h1, h2, Nat.zero_le _, Nat.le_refl 0,
    show (0 : Nat) < 0 + w.bounds.width by omega, h6, h7, h8, h9⟩

theorem inv_move_to_end_of_line (w : Window) (h : Inv w) :
    Inv w.move_to_end_of_line := by
  obtain ⟨h1, h2, h3, h4, h5, h6, h7, h8, h9⟩ := h
  obtain ⟨c1, c2, c3⟩ := invC_move_to_end_of_line w ⟨h1, h2, h3⟩
  refine ⟨c1, c2, c3, ?_, ?_, h6, h7, h8, h9⟩
  · exact (axis_jump w.scroll.x (w.buffer.line_length w.cursor.y)
      w.bounds.width h8 (by omega)).1
  · exact (axis_jump w.scroll.x (w.buffer.line_length w.cursor.y)
      w.bounds.width h8 (by omega)).2

theorem inv_move_to_first_char_in_line (w : Window) (h : Inv w) :
    Inv w.move_to_first_char_in_line := by
  obtain ⟨h1, h2, h3, h4, h5, h6, h7, h8, h9⟩ := h
  obtain ⟨c1, c2, c3⟩ := invC_move_to_first_char_in_line w ⟨h1, h2, h3⟩
  refine ⟨c1, c2, c3, ?_, ?_, h6, h7, h8, h9⟩
  · exact (axis_both w.scroll.x
      (match firstNonWhitespace (w.buffer.lines.getD w.cursor.y []) with
       | some i => i
       | none => w.cursor.x) w.bounds.width h8).1
  · exact (axis_both w.scroll.x
      (match firstNonWhitespace (w.buffer.lines.getD w.cursor.y []) with
       | some i => i
       | none => w.cursor.x) w.bounds.width h8).2

theorem inv_insert_char (w : Window) (c : Char) (h : Inv w) :
    Inv (w.insert_char c) := by
  obtain ⟨h1, h2, h3, h4, h5, h6, h7, h8, h9⟩ := h
  obtain ⟨c1, c2, c3⟩ := invC_insert_char w c ⟨h1, h2, h3⟩
  by_cases hc : c = '\n'
  · unfold Window.insert_char at c1 c2 c3 ⊢
    rw [if_pos hc] at c1 c2 c3 ⊢
    refine ⟨c1, c2, c3, Nat.le_refl 0,
      show (0 : Nat) < 0 + w.bounds.width by omega, ?_, ?_, h8, h9⟩
    · exact (axis_inc w.scroll.y (w.cursor.y + 1) w.bounds.height h9
        (by omega) (by omega)).1
    · exact (axis_inc w.scroll.y (w.cursor.y + 1) w.bounds.height h9
        (by omega) (by omega)).2
  · unfold Window.insert_char at c1 c2 c3 ⊢
    rw [if_neg hc] at c1 c2 c3 ⊢
    refine ⟨c1, c2, c3, ?_, ?_, h6, h7, h8, h9⟩
    · exact (axis_inc w.scroll.x (w.cursor.x + 1) w.bounds.width h8
        (by omega) (by omega)).1
    · exact (axis_inc w.scroll.x (w.cursor.x + 1) w.bounds.width h8
        (by omega) (by omega)).2

theorem inv_remove_char (w : Window) (h : Inv w) : Inv w.remove_char := by
  obtain ⟨h1, h2, h3, h4, h5, h6, h7, h8, h9⟩ := h
  obtain ⟨c1, c2, c3⟩ := invC_remove_char w ⟨h1, h2, h3⟩
  by_cases hx : w.cursor.x = 0
  · by_cases hy : w.cursor.y > 0
    · unfold Window.remove_char at c1 c2 c3 ⊢
      rw [if_pos hx, if_pos hy] at c1 c2 c3 ⊢
      refine ⟨c1, c2, c3, ?_, ?_, ?_, ?_, h8, h9⟩
      · exact (axis_jump w.scroll.x
          ((w.buffer.lines.eraseIdx w.cursor.y).getD (w.cursor.y - 1) []).length
          w.bounds.width h8 (by omega)).1
      · exact (axis_jump w.scroll.x
          ((w.buffer.lines.eraseIdx w.cursor.y).getD (w.cursor.y - 1) []).length
          w.bounds.width h8 (by omega)).2
      · exact (axis_dec w.scroll.y (w.cursor.y - 1) w.bounds.height h9
          (by omega) (by omega)).1
      · exact (axis_dec w.scroll.y (w.cursor.y - 1) w.bounds.height h9
          (by omega) (by omega)).2
    · unfold Window.remove_char
      rw [if_pos hx, if_neg hy]
      exact ⟨h1, h2, h3, h4, h5, h6, h7, h8, h9⟩
  · unfold Window.remove_char at c1 c2 c3 ⊢
    rw [if_neg hx] at c1 c2 c3 ⊢
    refine ⟨c1, c2, c3, ?_, ?_, h6, h7, h8, h9⟩
    · exact (axis_dec w.scroll.x (w.cursor.x - 1) w.bounds.width h8
        (by omega) (by omega)).1
    · exact (axis_dec w.scroll.x (w.cursor.x - 1) w.bounds.width h8
        (by omega) (by omega)).2

theorem delete_char_preserves_view (w w' : Window) (hd : w.delete_char = some w') :
    w'.cursor = w.cursor ∧ w'.scroll = w.scroll ∧ w'.bounds = w.bounds := by
  unfold Window.delete_char at hd
  split_ifs at hd
  all_goals
    simp only [Option.some.injEq] at hd
    subst hd
    exact ⟨rfl, rfl, rfl⟩

theorem inv_delete_char (w w' : Window) (h : Inv w)
    (hd : w.delete_char = some w') : Inv w' := by
  obtain ⟨h1, h2, h3, h4, h5, h6, h7, h8, h9⟩ := h
  obtain ⟨c1, c2, c3⟩ := invC_delete_char w w' ⟨h1, h2, h3⟩ hd
  obtain ⟨hc, hs, hb⟩ := delete_char_preserves_view w w' hd
  exact ⟨c1, c2, c3, by rw [hc, hs]; exact h4, by rw [hc, hs, hb]; exact h5,
    by rw [hc, hs]; exact h6, by rw [hc, hs, hb]; exact h7,
    by rw [hb]; exact h8, by rw [hb]; exact h9⟩

theorem inv_set_bounds (w : Window) (b : WindowBounds) (h : Inv w)
    (hbw : 0 < b.width) (hbh : 0 < b.height) : Inv (w.set_bounds b) := by
  obtain ⟨h1, h2, h3, h4, h5, h6, h7, h8, h9⟩ := h
  refine ⟨h1, h2, h3, ?_, ?_, ?_, ?_, hbw, hbh⟩
  · exact (axis_clamp w.scroll.x w.cursor.x b.width hbw h4).1
  · exact (axis_clamp w.scroll.x w.cursor.x b.width hbw h4).2
  · exact (axis_clamp w.scroll.y w.cursor.y b.height hbh h6).1
  · exact (axis_clamp w.scroll.y w.cursor.y b.height hbh h6).2

end InvLemmas

end Bvim

namespace Bvim

section StepLemmas

theorem inv_step (w w' : Window) (h : Inv w) (hs : Step w w') : Inv w' := by
  obtain ⟨op, hok, hop⟩ := hs
  cases op with
  | up => simp only [stepOp, Option.some.injEq] at hop; subst hop; exact inv_move_up w h
  | down => simp only [stepOp, Option.some.injEq] at hop; subst hop; exact inv_move_down w h
  | left => simp only [stepOp, Option.some.injEq] at hop; subst hop; exact inv_move_left w h
  | right => simp only [stepOp, Option.some.injEq] at hop; subst hop; exact inv_move_right w h
  | startOfLine =>
    simp only [stepOp, Option.some.injEq] at hop
    subst hop
    exact inv_move_to_start_of_line w h
  | endOfLine =>
    simp only [stepOp, Option.some.injEq] at hop
    subst hop
    exact inv_move_to_end_of_line w h
  | firstCharInLine =>
    simp only [stepOp, Option.some.injEq] at hop
    subst hop
    exact inv_move_to_first_char_in_line w h
  | insert c =>
    simp only [stepOp, Option.some.injEq] at hop
    subst hop
    exact inv_insert_char w c h
  | remove =>
    simp only [stepOp, Option.some.injEq] at hop
    subst hop
    exact inv_remove_char w h
  | delete => exact inv_delete_char w w' h hop
  | setBounds b =>
    obtain ⟨hbw, hbh⟩ := hok
    simp only [stepOp, Option.some.injEq] at hop
    subst hop
    exact inv_set_bounds w b h hbw hbh

theorem invC_stepAny (w w' : Window) (h : InvC w) (hs : StepAny w w') : InvC w' := by
  obtain ⟨op, hop⟩ := hs
  cases op with
  | up => simp only [stepOp, Option.some.injEq] at hop; subst hop; exact invC_move_up w h
  | down => simp only [stepOp, Option.some.injEq] at hop; subst hop; exact invC_move_down w h
  | left => simp only [stepOp, Option.some.injEq] at hop; subst hop; exact invC_move_left w h
  | right => simp only [stepOp, Option.some.injEq] at hop; subst hop; exact invC_move_right w h
  | startOfLine =>
    simp only [stepOp, Option.some.injEq] at hop
    subst hop
    exact invC_move_to_start_of_line w h
  | endOfLine =>
    simp only [stepOp, Option.some.injEq] at hop
    subst hop
    exact invC_move_to_end_of_line w h
  | firstCharInLine =>
    simp only [stepOp, Option.some.injEq] at hop
    subst hop
    exact invC_move_to_first_char_in_line w h
  | insert c =>
    simp only [stepOp, Option.some.injEq] at hop
    subst hop
    exact invC_insert_char w c h
  | remove =>
    simp only [stepOp, Option.some.injEq] at hop
    subst hop
    exact invC_remove_char w h
  | delete => exact invC_delete_char w w' h hop
  | setBounds b =>
    simp only [stepOp, Option.some.injEq] at hop
    subst hop
    exact invC_set_bounds w b h

theorem inv_reachable (w0 w : Window) (h0 : Inv w0) (hr : Reachable w0 w) : Inv w := by
  induction hr with
  | refl => exact h0
  | tail _ hstep ih => exact inv_step _ _ ih hstep

theorem invC_reachableAny (w0 w : Window) (h0 : InvC w0) (hr : ReachableAny w0 w) :
    InvC w := by
  induction hr with
  | refl => exact h0
  | tail _ hstep ih => exact invC_stepAny _ _ ih hstep

theorem initialBuffer_ne_nil (b : Buffer) (h : InitialBuffer b) : b.lines ≠ [] := by
  rcases h with h | ⟨p, h⟩ | ⟨p, content, h⟩ <;> subst h
  · simp [Buffer.new, Buffer.new_with_path]
  · simp [Buffer.new_with_path]
  · show Buffer.linesFromContent content ≠ []
    unfold Buffer.linesFromContent
    intro hmap
    exact splitOnChar_ne_nil '\n' content (List.map_eq_nil_iff.mp hmap)

theorem initialBuffer_inv (b : Buffer) (bounds : WindowBounds) (h : InitialBuffer b)
    (hw : 0 < bounds.width) (hh : 0 < bounds.height) : Inv (Window.new b bounds) := by
  have hne := initialBuffer_ne_nil b h
  exact ⟨hne, List.length_pos.mpr hne, Nat.zero_le _, Nat.le_refl 0,
    show (0 : Nat) < 0 + bounds.width by omega, Nat.le_refl 0,
    show (0 : Nat) < 0 + bounds.height by omega, hw, hh⟩

theorem initialBuffer_invC (b : Buffer) (bounds : WindowBounds) (h : InitialBuffer b) :
    InvC (Window.new b bounds) := by
  have hne := initialBuffer_ne_nil b h
  exact ⟨hne, List.length_pos.mpr hne, Nat.zero_le _⟩

end StepLemmas

/-- C2: from a freshly constructed window over a constructor-made buffer
with positive bounds, every state reachable by move_up, move_down,
move_left, move_right, move_to_start_of_line, move_to_end_of_line,
move_to_first_char_in_line, insert_char, remove_char, delete_char and
set_bounds to positive bounds keeps the cursor inside the scrolled
viewport on both axes. -/
theorem viewport_invariant_reachable (b : Buffer) (bounds : WindowBounds) (w : Window)
    (hb : InitialBuffer b) (hw : 0 < bounds.width) (hh : 0 < bounds.height)
    (hr : Reachable (Window.new b bounds) w) :
    w.scroll.y ≤ w.cursor.y ∧ w.cursor.y < w.scroll.y + w.bounds.height ∧
    w.scroll.x ≤ w.cursor.x ∧ w.cursor.x < w.scroll.x + w.bounds.width := by
  obtain ⟨_, _, _, h4, h5, h6, h7, _, _⟩ :=
    inv_reachable _ _ (initialBuffer_inv b bounds hb hw hh) hr
  exact ⟨h6, h7, h4, h5⟩

/-- C2 witness: the freshly constructed window itself, reachable by the
empty sequence. -/
theorem viewport_invariant_reachable_witness :
    (Window.new Buffer.new ⟨1, 1⟩).scroll.y ≤ (Window.new Buffer.new ⟨1, 1⟩).cursor.y ∧
    (Window.new Buffer.new ⟨1, 1⟩).cursor.y <
      (Window.new Buffer.new ⟨1, 1⟩).scroll.y + (Window.new Buffer.new ⟨1, 1⟩).bounds.height ∧
    (Window.new Buffer.new ⟨1, 1⟩).scroll.x ≤ (Window.new Buffer.new ⟨1, 1⟩).cursor.x ∧
    (Window.new Buffer.new ⟨1, 1⟩).cursor.x <
      (Window.new Buffer.new ⟨1, 1⟩).scroll.x + (Window.new Buffer.new ⟨1, 1⟩).bounds.width :=
  viewport_invariant_reachable Buffer.new ⟨1, 1⟩ (Window.new Buffer.new ⟨1, 1⟩)
    (Or.inl rfl) (by decide) (by decide) Relation.ReflTransGen.refl

/-- C3: from a freshly constructed window over a constructor-made
buffer, every state reachable by any sequence of the motion and edit
operations (resizes included, unrestricted) has a non-empty line list,
a cursor row inside it, and a cursor column at most one past the last
character of its line. -/
theorem cursor_bounds_invariant_reachable (b : Buffer) (bounds : WindowBounds)
    (w : Window) (hb : InitialBuffer b)
    (hr : ReachableAny (Window.new b bounds) w) :
    w.buffer.lines ≠ [] ∧ w.cursor.y < w.buffer.lines.length ∧
    w.cursor.x ≤ w.buffer.line_length w.cursor.y :=
  invC_reachableAny _ _ (initialBuffer_invC b bounds hb) hr

/-- C3 witness: the freshly constructed window itself, reachable by the
empty sequence. -/
theorem cursor_bounds_invariant_reachable_witness :
    (Window.new Buffer.new ⟨3, 2⟩).buffer.lines ≠ [] ∧
    (Window.new Buffer.new ⟨3, 2⟩).cursor.y <
      (Window.new Buffer.new ⟨3, 2⟩).buffer.lines.length ∧
    (Window.new Buffer.new ⟨3, 2⟩).cursor.x ≤
      (Window.new Buffer.new ⟨3, 2⟩).buffer.line_length
        (Window.new Buffer.new ⟨3, 2⟩).cursor.y :=
  cursor_bounds_invariant_reachable Buffer.new ⟨3, 2⟩ (Window.new Buffer.new ⟨3, 2⟩)
    (Or.inl rfl) Relation.ReflTransGen.refl

end Bvim

namespace Bvim

section NoNewlineLemmas

open Window

theorem move_up_buffer (w : Window) : w.move_up.buffer = w.buffer := by
  unfold Window.move_up; split_ifs <;> rfl

theorem move_down_buffer (w : Window) : w.move_down.buffer = w.buffer := by
  unfold Window.move_down; split_ifs <;> rfl

theorem move_left_buffer (w : Window) : w.move_left.buffer = w.buffer := by
  unfold Window.move_left; split_ifs <;> rfl

theorem move_right_buffer (w : Window) : w.move_right.buffer = w.buffer := by
  unfold Window.move_right; split_ifs <;> rfl

theorem move_to_start_of_line_buffer (w : Window) :
    w.move_to_start_of_line.buffer = w.buffer := rfl

theorem move_to_end_of_line_buffer (w : Window) :
    w.move_to_end_of_line.buffer = w.buffer := rfl

theorem move_to_first_char_in_line_buffer (w : Window) :
    w.move_to_first_char_in_line.buffer = w.buffer := rfl

theorem set_bounds_buffer (w : Window) (b : WindowBounds) :
    (w.set_bounds b).buffer = w.buffer := rfl

theorem noNl_getD (l : List Line) (h : ∀ x ∈ l, '\n' ∉ x) (i : Nat) :
    '\n' ∉ l.getD i [] := by
  by_cases hi : i < l.length
  · refine h _ ?_
    rw [List.getD_eq_getElem?_getD, List.getElem?_eq_getElem hi]
    exact List.getElem_mem hi
  · rw [List.getD_eq_default _ _ (by omega)]
    simp

theorem noNl_insert_char (w : Window) (c : Char) (h : LinesNoNewline w) :
    LinesNoNewline (w.insert_char c) := by
  by_cases hc : c = '\n'
  · intro l hl
    have hl' : l ∈ ((w.buffer.lines.set w.cursor.y
        (if w.cursor.x = 0 then [] else (w.buffer.lines.getD w.cursor.y []).take w.cursor.x)).insertIdx
          (w.cursor.y + 1)
          (if w.cursor.x = 0 then w.buffer.lines.getD w.cursor.y []
           else if w.cursor.x < (w.buffer.lines.getD w.cursor.y []).length then
             (w.buffer.lines.getD w.cursor.y []).drop w.cursor.x
           else [])) := by
      have heq : (w.insert_char c).buffer.lines =
          ((w.buffer.lines.set w.cursor.y
            (if w.cursor.x = 0 then [] else (w.buffer.lines.getD w.cursor.y []).take w.cursor.x)).insertIdx
              (w.cursor.y + 1)
              (if w.cursor.x = 0 then w.buffer.lines.getD w.cursor.y []
               else if w.cursor.x < (w.buffer.lines.getD w.cursor.y []).length then
                 (w.buffer.lines.getD w.cursor.y []).drop w.cursor.x
               else [])) := by
        unfold Window.insert_char
        rw [if_pos hc]
      exact heq ▸ hl
    have hcur : '\n' ∉ w.buffer.lines.getD w.cursor.y [] := noNl_getD _ h _
    rcases mem_insertIdx_any _ _ _ _ hl' with h1 | h2
    · subst h1
      split_ifs with h0 hlt
      · exact hcur
      · exact fun hm => hcur (List.drop_subset _ _ hm)
      · simp
    · rcases List.mem_or_eq_of_mem_set h2 with h3 | h4
      · exact h _ h3
      · subst h4
        split_ifs with h0
        · simp
        · exact fun hm => hcur (List.take_subset _ _ hm)
  · intro l hl
    have hl' : l ∈ w.buffer.lines.set w.cursor.y
        ((w.buffer.lines.getD w.cursor.y []).insertIdx
          (min w.cursor.x (w.buffer.lines.getD w.cursor.y []).length) c) := by
      have heq : (w.insert_char c).buffer.lines =
          w.buffer.lines.set w.cursor.y
            ((w.buffer.lines.getD w.cursor.y []).insertIdx
              (min w.cursor.x (w.buffer.lines.getD w.cursor.y []).length) c) := by
        unfold Window.insert_char
        rw [if_neg hc]
      exact heq ▸ hl
    rcases List.mem_or_eq_of_mem_set hl' with h3 | h4
    · exact h _ h3
    · subst h4
      intro hm
      rcases mem_insertIdx_any _ _ _ _ hm with h5 | h6
      · exact hc h5.symm
      · exact noNl_getD _ h _ h6

theorem noNl_remove_char (w : Window) (h : LinesNoNewline w) :
    LinesNoNewline w.remove_char := by
  by_cases hx : w.cursor.x = 0
  · by_cases hy : w.cursor.y > 0
    · intro l hl
      have hl' : l ∈ (w.buffer.lines.eraseIdx w.cursor.y).set (w.cursor.y - 1)
          (((w.buffer.lines.eraseIdx w.cursor.y).getD (w.cursor.y - 1) []) ++
            (w.buffer.lines.getD w.cursor.y [])) := by
        have heq : w.remove_char.buffer.lines =
            (w.buffer.lines.eraseIdx w.cursor.y).set (w.cursor.y - 1)
              (((w.buffer.lines.eraseIdx w.cursor.y).getD (w.cursor.y - 1) []) ++
                (w.buffer.lines.getD w.cursor.y [])) := by
          unfold Window.remove_char
          rw [if_pos hx, if_pos hy]
        exact heq ▸ hl
      have herase : ∀ x ∈ w.buffer.lines.eraseIdx w.cursor.y, '\n' ∉ x :=
        fun x hx' => h _ ((List.eraseIdx_sublist _ _).mem hx')
      rcases List.mem_or_eq_of_mem_set hl' with h3 | h4
      · exact herase _ h3
      · subst h4
        intro hm
        rcases List.mem_append.mp hm with h5 | h6
        · exact noNl_getD _ herase _ h5
        · exact noNl_getD _ h _ h6
    · intro l hl
      have : w.remove_char = w := by
        unfold Window.remove_char
        rw [if_pos hx, if_neg hy]
      exact h l (this ▸ hl)
  · intro l hl
    have hl' : l ∈ w.buffer.lines.set w.cursor.y
        ((w.buffer.lines.getD w.cursor.y []).eraseIdx (w.cursor.x - 1)) := by
      have heq : w.remove_char.buffer.lines =
          w.buffer.lines.set w.cursor.y
            ((w.buffer.lines.getD w.cursor.y []).eraseIdx (w.cursor.x - 1)) := by
        unfold Window.remove_char
        rw [if_neg hx]
      exact heq ▸ hl
    rcases List.mem_or_eq_of_mem_set hl' with h3 | h4
    · exact h _ h3
    · subst h4
      exact fun hm => noNl_getD _ h w.cursor.y ((List.eraseIdx_sublist _ _).mem hm)

theorem noNl_delete_char (w w' : Window) (h : LinesNoNewline w)
    (hd : w.delete_char = some w') : LinesNoNewline w' := by
  unfold Window.delete_char at hd
  split_ifs at hd with hxc hlen hmerge hx2
  all_goals simp only [Option.some.injEq] at hd
  · subst hd
    intro l hl
    have herase : ∀ x ∈ w.buffer.lines.eraseIdx (w.cursor.y + 1), '\n' ∉ x :=
      fun x hx' => h _ ((List.eraseIdx_sublist _ _).mem hx')
    rcases List.mem_or_eq_of_mem_set hl with h3 | h4
    · exact herase _ h3
    · subst h4
      intro hm
      rcases List.mem_append.mp hm with h5 | h6
      · exact noNl_getD _ herase _ h5
      · exact noNl_getD _ h _ h6
  · subst hd
    exact h
  · subst hd
    intro l hl
    rcases List.mem_or_eq_of_mem_set hl with h3 | h4
    · exact h _ h3
    · subst h4
      exact fun hm => noNl_getD _ h w.cursor.y ((List.eraseIdx_sublist _ _).mem hm)

theorem noNl_stepAny (w w' : Window) (h : LinesNoNewline w) (hs : StepAny w w') :
    LinesNoNewline w' := by
  obtain ⟨op, hop⟩ := hs
  cases op with
  | up =>
    simp only [stepOp, Option.some.injEq] at hop
    subst hop
    intro l hl
    exact h l (move_up_buffer w ▸ hl)
  | down =>
    simp only [stepOp, Option.some.injEq] at hop
    subst hop
    intro l hl
    exact h l (move_down_buffer w ▸ hl)
  | left =>
    simp only [stepOp, Option.some.injEq] at hop
    subst hop
    intro l hl
    exact h l (move_left_buffer w ▸ hl)
  | right =>
    simp only [stepOp, Option.some.injEq] at hop
    subst hop
    intro l hl
    exact h l (move_right_buffer w ▸ hl)
  | startOfLine =>
    simp only [stepOp, Option.some.injEq] at hop
    subst hop
    exact h
  | endOfLine =>
    simp only [stepOp, Option.some.injEq] at hop
    subst hop
    exact h
  | firstCharInLine =>
    simp only [stepOp, Option.some.injEq] at hop
    subst hop
    exact h
  | insert c =>
    simp only [stepOp, Option.some.injEq] at hop
    subst hop
    exact noNl_insert_char w c h
  | remove =>
    simp only [stepOp, Option.some.injEq] at hop
    subst hop
    exact noNl_remove_char w h
  | delete => exact noNl_delete_char w w' h hop
  | setBounds b =>
    simp only [stepOp, Option.some.injEq] at hop
    subst hop
    exact h

theorem noNl_initialBuffer (b : Buffer) (h : InitialBuffer b) :
    ∀ l ∈ b.lines, '\n' ∉ l := by
  rcases h with h | ⟨p, h⟩ | ⟨p, content, h⟩ <;> subst h
  · intro l hl
    simp only [Buffer.new, Buffer.new_with_path, List.mem_singleton] at hl
    simp [hl]
  · intro l hl
    simp only [Buffer.new_with_path, List.mem_singleton] at hl
    simp [hl]
  · intro l hl
    have hl' : l ∈ (Buffer.splitOnChar '\n' content).map Buffer.removeCr := hl
    obtain ⟨p', hp', hp'eq⟩ := List.mem_map.mp hl'
    subst hp'eq
    intro hm
    have : '\n' ∈ p' := List.mem_of_mem_filter hm
    exact mem_splitOnChar_not_mem '\n' content p' hp' this

end NoNewlineLemmas

/-- C10: from a window over a buffer produced by Buffer::new,
Buffer::new_with_path or Buffer::new_from_file, every state reachable
by any sequence of window operations has newline-free lines: inserting
a newline splits the current line, loading splits file content on
newlines, and joins concatenate newline-free lines. -/
theorem lines_never_contain_newline (b : Buffer) (bounds : WindowBounds) (w : Window)
    (hb : InitialBuffer b) (hr : ReachableAny (Window.new b bounds) w) :
    ∀ l ∈ w.buffer.lines, '\n' ∉ l := by
  have h0 : LinesNoNewline (Window.new b bounds) := noNl_initialBuffer b hb
  induction hr with
  | refl => exact h0
  | tail _ hstep ih => exact noNl_stepAny _ _ ih hstep

/-- C10 witness: the first line of a freshly loaded buffer, itself a
reachable state by the empty sequence, is newline-free. -/
theorem lines_never_contain_newline_witness :
    '\n' ∉ (['a'] : Line) :=
  lines_never_contain_newline (Buffer.new_from_file "f" ['a', '\n', 'b']) ⟨2, 2⟩
    (Window.new (Buffer.new_from_file "f" ['a', '\n', 'b']) ⟨2, 2⟩)
    (Or.inr (Or.inr ⟨"f", ['a', '\n', 'b'], rfl⟩)) Relation.ReflTransGen.refl
    ['a'] (by decide)

end Bvim

namespace Bvim

section FixAxisLemmas

open Window

theorem fix_move_up (w : Window) (h : Inv w) :
    w.move_up.scroll.x = fixAxis w.scroll.x w.move_up.cursor.x w.bounds.width ∧
    w.move_up.scroll.y = fixAxis w.scroll.y w.move_up.cursor.y w.bounds.height := by
  obtain ⟨h1, h2, h3, h4, h5, h6, h7, h8, h9⟩ := h
  by_cases hy : w.cursor.y > 0
  · unfold Window.move_up
    rw [if_pos hy]
    constructor
    · show (if min w.cursor.x (w.buffer.line_length (w.cursor.y - 1)) < w.scroll.x
            then min w.cursor.x (w.buffer.line_length (w.cursor.y - 1)) else w.scroll.x) =
        fixAxis w.scroll.x (min w.cursor.x (w.buffer.line_length (w.cursor.y - 1)))
          w.bounds.width
      unfold fixAxis
      split_ifs <;> omega
    · show (if w.cursor.y - 1 < w.scroll.y then w.scroll.y - 1 else w.scroll.y) =
        fixAxis w.scroll.y (w.cursor.y - 1) w.bounds.height
      unfold fixAxis
      split_ifs <;> omega
  · unfold Window.move_up
    rw [if_neg hy]
    constructor
    · show w.scroll.x = fixAxis w.scroll.x w.cursor.x w.bounds.width
      unfold fixAxis
      split_ifs <;> omega
    · show w.scroll.y = fixAxis w.scroll.y w.cursor.y w.bounds.height
      unfold fixAxis
      split_ifs <;> omega

theorem fix_move_down (w : Window) (h : Inv w) :
    w.move_down.scroll.x = fixAxis w.scroll.x w.move_down.cursor.x w.bounds.width ∧
    w.move_down.scroll.y = fixAxis w.scroll.y w.move_down.cursor.y w.bounds.height := by
  obtain ⟨h1, h2, h3, h4, h5, h6, h7, h8, h9⟩ := h
  by_cases hy : w.cursor.y < w.buffer.lines.length - 1
  · unfold Window.move_down
    rw [if_pos hy]
    constructor
    · show (if min w.cursor.x (w.buffer.line_length (w.cursor.y + 1)) < w.scroll.x
            then min w.cursor.x (w.buffer.line_length (w.cursor.y + 1)) else w.scroll.x) =
        fixAxis w.scroll.x (min w.cursor.x (w.buffer.line_length (w.cursor.y + 1)))
          w.bounds.width
      unfold fixAxis
      split_ifs <;> omega
    · show (if w.cursor.y + 1 ≥ w.scroll.y + w.bounds.height then w.scroll.y + 1
            else w.scroll.y) =
        fixAxis w.scroll.y (w.cursor.y + 1) w.bounds.height
      unfold fixAxis
      split_ifs <;> omega
  · unfold Window.move_down
    rw [if_neg hy]
    constructor
    · show w.scroll.x = fixAxis w.scroll.x w.cursor.x w.bounds.width
      unfold fixAxis
      split_ifs <;> omega
    · show w.scroll.y = fixAxis w.scroll.y w.cursor.y w.bounds.height
      unfold fixAxis
      split_ifs <;> omega

theorem fix_move_left (w : Window) (h : Inv w) :
    w.move_left.scroll.x = fixAxis w.scroll.x w.move_left.cursor.x w.bounds.width ∧
    w.move_left.scroll.y = fixAxis w.scroll.y w.move_left.cursor.y w.bounds.height := by
  obtain ⟨h1, h2, h3, h4, h5, h6, h7, h8, h9⟩ := h
  by_cases hx : w.cursor.x > 0
  · unfold Window.move_left
    rw [if_pos hx]
    constructor
    · show (if w.cursor.x - 1 < w.scroll.x then w.scroll.x - 1 else w.scroll.x) =
        fixAxis w.scroll.x (w.cursor.x - 1) w.bounds.width
      unfold fixAxis
      split_ifs <;> omega
    · show w.scroll.y = fixAxis w.scroll.y w.cursor.y w.bounds.height
      unfold fixAxis
      split_ifs <;> omega
  · by_cases hy : w.cursor.y > 0
    · unfold Window.move_left
      rw [if_neg hx, if_pos hy]
      constructor
      · show (if w.buffer.line_length (w.cursor.y - 1) ≥ w.scroll.x + w.bounds.width
              then w.buffer.line_length (w.cursor.y - 1) - w.bounds.width + 1
              else w.scroll.x) =
          fixAxis w.scroll.x (w.buffer.line_length (w.cursor.y - 1)) w.bounds.width
        unfold fixAxis
        split_ifs <;> omega
      · show (if w.cursor.y - 1 < w.scroll.y then w.scroll.y - 1 else w.scroll.y) =
          fixAxis w.scroll.y (w.cursor.y - 1) w.bounds.height
        unfold fixAxis
        split_ifs <;> omega
    · unfold Window.move_left
      rw [if_neg hx, if_neg hy]
      constructor
      · show w.scroll.x = fixAxis w.scroll.x w.cursor.x w.bounds.width
        unfold fixAxis
        split_ifs <;> omega
      · show w.scroll.y = fixAxis w.scroll.y w.cursor.y w.bounds.height
        unfold fixAxis
        split_ifs <;> omega

theorem fix_move_right (w : Window) (h : Inv w) :
    w.move_right.scroll.x = fixAxis w.scroll.x w.move_right.cursor.x w.bounds.width ∧
    w.move_right.scroll.y = fixAxis w.scroll.y w.move_right.cursor.y w.bounds.height := by
  obtain ⟨h1, h2, h3, h4, h5, h6, h7, h8, h9⟩ := h
  by_cases hx : w.cursor.x < w.buffer.line_length w.cursor.y
  · unfold Window.move_right
    rw [if_pos hx]
    constructor
    · show (if w.cursor.x + 1 ≥ w.scroll.x + w.bounds.width then w.scroll.x + 1
            else w.scroll.x) =
        fixAxis w.scroll.x (w.cursor.x + 1) w.bounds.width
      unfold fixAxis
      split_ifs <;> omega
    · show w.scroll.y = fixAxis w.scroll.y w.cursor.y w.bounds.height
      unfold fixAxis
      split_ifs <;> omega
  · by_cases hy : w.cursor.y < w.buffer.lines.length - 1
    · unfold Window.move_right
      rw [if_neg hx, if_pos hy]
      constructor
      · show (0 : Nat) = fixAxis w.scroll.x 0 w.bounds.width
        unfold fixAxis
        split_ifs <;> omega
      · show (if w.cursor.y + 1 ≥ w.scroll.y + w.bounds.height then w.scroll.y + 1
              else w.scroll.y) =
          fixAxis w.scroll.y (w.cursor.y + 1) w.bounds.height
        unfold fixAxis
        split_ifs <;> omega
    · unfold Window.move_right
      rw [if_neg hx, if_neg hy]
      constructor
      · show w.scroll.x = fixAxis w.scroll.x w.cursor.x w.bounds.width
        unfold fixAxis
        split_ifs <;> omega
      · show w.scroll.y = fixAxis w.scroll.y w.cursor.y w.bounds.height
        unfold fixAxis
        split_ifs <;> omega

theorem fix_move_to_start_of_line (w : Window) (h : Inv w) :
    w.move_to_start_of_line.scroll.x =
      fixAxis w.scroll.x w.move_to_start_of_line.cursor.x w.bounds.width ∧
    w.move_to_start_of_line.scroll.y =
      fixAxis w.scroll.y w.move_to_start_of_line.cursor.y w.bounds.height := by
  obtain ⟨h1, h2, h3, h4, h5, h6, h7, h8, h9⟩ := h
  constructor
  · show (0 : Nat) = fixAxis w.scroll.x 0 w.bounds.width
    unfold fixAxis
    split_ifs <;> omega
  · show w.scroll.y = fixAxis w.scroll.y w.cursor.y w.bounds.height
    unfold fixAxis
    split_ifs <;> omega

theorem fix_move_to_end_of_line (w : Window) (h : Inv w) :
    w.move_to_end_of_line.scroll.x =
      fixAxis w.scroll.x w.move_to_end_of_line.cursor.x w.bounds.width ∧
    w.move_to_end_of_line.scroll.y =
      fixAxis w.scroll.y w.move_to_end_of_line.cursor.y w.bounds.height := by
  obtain ⟨h1, h2, h3, h4, h5, h6, h7, h8, h9⟩ := h
  constructor
  · show (if w.buffer.line_length w.cursor.y ≥ w.scroll.x + w.bounds.width
          then w.buffer.line_length w.cursor.y - w.bounds.width + 1
          else w.scroll.x) =
      fixAxis w.scroll.x (w.buffer.line_length w.cursor.y) w.bounds.width
    unfold fixAxis
    split_ifs <;> omega
  · show w.scroll.y = fixAxis w.scroll.y w.cursor.y w.bounds.height
    unfold fixAxis
    split_ifs <;> omega

theorem fix_move_to_first_char_in_line (w : Window) (h : Inv w) :
    w.move_to_first_char_in_line.scroll.x =
      fixAxis w.scroll.x w.move_to_first_char_in_line.cursor.x w.bounds.width ∧
    w.move_to_first_char_in_line.scroll.y =
      fixAxis w.scroll.y w.move_to_first_char_in_line.cursor.y w.bounds.height := by
  obtain ⟨h1, h2, h3, h4, h5, h6, h7, h8, h9⟩ := h
  constructor
  · show (if (match firstNonWhitespace (w.buffer.lines.getD w.cursor.y []) with
              | some i => i
              | none => w.cursor.x) ≥
            (if (match firstNonWhitespace (w.buffer.lines.getD w.cursor.y []) with
                 | some i => i
                 | none => w.cursor.x) < w.scroll.x then
               (match firstNonWhitespace (w.buffer.lines.getD w.cursor.y []) with
                | some i => i
                | none => w.cursor.x)
             else w.scroll.x) + w.bounds.width
          then (match firstNonWhitespace (w.buffer.lines.getD w.cursor.y []) with
                | some i => i
                | none => w.cursor.x) - w.bounds.width + 1
          else (if (match firstNonWhitespace (w.buffer.lines.getD w.cursor.y []) with
                    | some i => i
                    | none => w.cursor.x) < w.scroll.x then
                  (match firstNonWhitespace (w.buffer.lines.getD w.cursor.y []) with
                   | some i => i
                   | none => w.cursor.x)
                else w.scroll.x)) =
      fixAxis w.scroll.x
        (match firstNonWhitespace (w.buffer.lines.getD w.cursor.y []) with
         | some i => i
         | none => w.cursor.x) w.bounds.width
    unfold fixAxis
    split_ifs <;> omega
  · show w.scroll.y = fixAxis w.scroll.y w.cursor.y w.bounds.height
    unfold fixAxis
    split_ifs <;> omega

end FixAxisLemmas

/-- C9: scenario: with bounds height 5 over a 20-line buffer, twelve
move_down steps from the origin put the cursor on row 12 with scroll.y
8 (cursor on the last visible row); in general, every motion leaves the
scroll equal to the minimal per-axis reconciliation of the old scroll
against the new cursor: cursor if the cursor moved left of the scroll,
cursor - size + 1 if it moved to or past the far edge, unchanged
otherwise. -/
theorem scroll_reconciliation_spec :
    ((Nat.iterate Window.move_down 12
        (Window.new ⟨List.replicate 20 [], none, false⟩ ⟨10, 5⟩)).cursor.y = 12 ∧
     (Nat.iterate Window.move_down 12
        (Window.new ⟨List.replicate 20 [], none, false⟩ ⟨10, 5⟩)).scroll.y = 8) ∧
    ∀ (w : Window) (m : Motion), Inv w →
      (applyMotion m w).scroll.x =
        fixAxis w.scroll.x (applyMotion m w).cursor.x w.bounds.width ∧
      (applyMotion m w).scroll.y =
        fixAxis w.scroll.y (applyMotion m w).cursor.y w.bounds.height := by
  constructor
  · exact ⟨by decide, by decide⟩
  · intro w m h
    cases m with
    | up => exact fix_move_up w h
    | down => exact fix_move_down w h
    | left => exact fix_move_left w h
    | right => exact fix_move_right w h
    | startOfLine => exact fix_move_to_start_of_line w h
    | endOfLine => exact fix_move_to_end_of_line w h
    | firstCharInLine => exact fix_move_to_first_char_in_line w h

/-- C9 witness: one move_down on a fresh two-line window satisfies the
reconciliation rule on both axes. -/
theorem scroll_reconciliation_spec_witness :
    (applyMotion Motion.down (Window.new ⟨[[], []], none, false⟩ ⟨1, 1⟩)).scroll.x =
      fixAxis (Window.new ⟨[[], []], none, false⟩ ⟨1, 1⟩).scroll.x
        (applyMotion Motion.down (Window.new ⟨[[], []], none, false⟩ ⟨1, 1⟩)).cursor.x
        (Window.new ⟨[[], []], none, false⟩ ⟨1, 1⟩).bounds.width ∧
    (applyMotion Motion.down (Window.new ⟨[[], []], none, false⟩ ⟨1, 1⟩)).scroll.y =
      fixAxis (Window.new ⟨[[], []], none, false⟩ ⟨1, 1⟩).scroll.y
        (applyMotion Motion.down (Window.new ⟨[[], []], none, false⟩ ⟨1, 1⟩)).cursor.y
        (Window.new ⟨[[], []], none, false⟩ ⟨1, 1⟩).bounds.height :=
  scroll_reconciliation_spec.2 (Window.new ⟨[[], []], none, false⟩ ⟨1, 1⟩) Motion.down
    (by unfold Inv; decide)

end Bvim
